import Mathlib

/-!
# pidmap: PID → container-id reconciliation

A shallow embedding of `pkg/pidmap/pidmap.go` and theorems about it.

Modelling conventions
* A Go `string` is a sequence of bytes: `GoString = List (Fin 256)`.  `str` turns
  an ASCII literal into its bytes.
* `uint32` is `Fin 4294967296`; the conversion `uint32(pid)` from `int` is an explicit
  reduction modulo `2^32`.
* A Go `map[uint32]string` is an association list without duplicate keys
  (`AList`).  The order in which `range` visits a map is not fixed by Go; every `range`
  over a map takes its visiting order from a `RangeOrder`, which may pick any
  permutation of the entries.
* `exec.Command(prog, args...).CombinedOutput()` is a state transformer on an
  arbitrary world `σ`, returning whether `err != nil`.  `Apply` and `Update` also return the
  commands they ran, in order.
* Text written with `fmt.Printf` is not part of the model.
* Definitions up to `Update` follow the source.  The decoders (`fromHexChar`, `hexByteValue`,
  `parseHexBytes`, `fromLittleEndian`), the positional rules (`DockerAt`, `KubepodsAt`,
  `NoMatchBefore`), `Holds` and `DistinctPids` state properties and are not part of the code;
  `bpftool` models the external store.  `runAll` and `runUntilFailure` describe runs of
  commands, to state which commands `Apply` runs and in which world.
-/

namespace Pidmap

/-! ## Strings -/

abbrev Byte := Fin 256

abbrev GoString := List Byte

/-- The bytes of an ASCII literal. -/
def str (s : String) : GoString := s.toList.map (fun c => Fin.ofNat c.toNat)

/-- Go `strings.Split(s, sep)` for a separator of one byte (every call in `pidmap.go`
splits on one of "\n", ":", "/", " ").  The result always has at least one element;
`Split "" sep = [""]`. -/
def Split (s : GoString) (sep : Byte) : List GoString :=
  match s with
  | [] => [[]]
  | c :: cs =>
    if c = sep then [] :: Split cs sep
    else
      match Split cs sep with
      | [] => [[c]]
      | p :: ps => (c :: p) :: ps

/-- Go `strings.HasPrefix`. -/
def HasPrefix (s pre : GoString) : Bool := pre.isPrefixOf s

/-- Whether a byte is an ASCII decimal digit. -/
def isDigit (c : Byte) : Bool := decide (48 ≤ c.val ∧ c.val ≤ 57)

/-- Go `strconv.Atoi` on a platform with 64-bit `int`: an optional sign `+` or `-`
followed by one or more decimal digits, whose value fits in `int64`.  `none` stands for a
non-nil error (syntax or range). -/
def Atoi (s : GoString) : Option Int :=
  let neg : Bool := decide (s.head? = some 45)
  let body : GoString :=
    match s with
    | [] => []
    | c :: cs => if c = 45 ∨ c = 43 then cs else s
  if body = [] then none
  else if !body.all isDigit then none
  else
    let n : Int := body.foldl (fun (n : Int) (c : Byte) => n * 10 + ((c.val : Int) - 48)) 0
    let v : Int := if neg then -n else n
    if -9223372036854775808 ≤ v ∧ v ≤ 9223372036854775807 then some v else none

/-! ## Machine integers and maps -/

abbrev Uint32 := Fin 4294967296

/-- The Go conversion `uint32(pid)` of an `int`: truncation to the low 32 bits. -/
def uint32 (pid : Int) : Uint32 := Fin.ofNat (pid % 4294967296).toNat

abbrev Entry := Sigma (fun _ : Uint32 => GoString)

/-- A Go `map[uint32]string`. -/
abbrev GoMap := AList (fun _ : Uint32 => GoString)

/-- The visiting order of one `range` loop over a map: any permutation of its entries. -/
structure RangeOrder where
  order : GoMap → List Entry
  perm : ∀ m : GoMap, (order m).Perm m.entries

/-- The visiting order that follows the association list. -/
def RangeOrder.asStored : RangeOrder := ⟨fun m => m.entries, fun _ => List.Perm.refl _⟩

/-- The visiting order that follows the association list backwards. -/
def RangeOrder.reversed : RangeOrder :=
  ⟨fun m => m.entries.reverse, fun m => List.reverse_perm m.entries⟩

/-- The three `range` loops over maps in one tick: over `pm.pidmap` in `Update`, and over
`pidmapToRemove` and `pidmapToAdd` in `Apply`. -/
structure Orders where
  previous : RangeOrder
  toRemove : RangeOrder
  toAdd : RangeOrder

def Orders.asStored : Orders := ⟨RangeOrder.asStored, RangeOrder.asStored, RangeOrder.asStored⟩

def Orders.reversed : Orders := ⟨RangeOrder.reversed, RangeOrder.reversed, RangeOrder.reversed⟩

/-- The state of a `PidMap` that `Update` and `Apply` use (the `quit` channel belongs to
the scheduler goroutine). -/
structure PidMap where
  pidmap : GoMap

/-! ## The process table -/

/-- What one tick sees of `hostProc`: whether `os.Open` fails, the names that
`Readdirnames(0)` delivers and whether it also reports an error, and the result of
`ioutil.ReadFile(hostProc/<name>/cgroup)` for a name (`none` stands for an error). -/
structure HostProc where
  openErr : Bool
  names : List GoString
  listErr : Bool
  cgroup : GoString → Option GoString

/-- The two statements `f, err := os.Open(hostProc)` and `procs, err := f.Readdirnames(0)`.
When the open fails the error is printed and `f` is nil; `Readdirnames` on a nil file
returns no names and an error, which is printed too.  Returns `procs` and whether the
second `err` is non-nil. -/
def Readdirnames (fs : HostProc) : List GoString × Bool :=
  if fs.openErr then ([], true) else (fs.names, fs.listErr)

/-! ## Container-id extraction (lines 109-139 of `Update`) -/

/-- The loop `for i := range parts`.  The argument is `parts[i:]`: with `rest = parts[i+1:]`
the test `len(parts) > i+1` is `rest.length > 0` and `parts[i+1]` is `rest[0]`; likewise
`len(parts) > i+3` is `rest.length > 2` and `parts[i+3]` is `rest[2]`.  Returns the value
of `id` after the loop (`id` is "" when the loop starts). -/
def scanParts : List GoString → GoString
  | [] => []
  | p :: rest =>
    if (p = str "docker" ∨ p = str "docker.service") ∧ rest.length > 0 then rest.getD 0 []
    else if p = str "kubepods" ∧ rest.length > 2 then rest.getD 2 []
    else scanParts rest

/-- One iteration of `for _, line := range lines`, entered with `id == ""`: the value of `id`
at the test `if id != ""` that ends the iteration ("" when the line is skipped). -/
def lineId (line : GoString) : GoString :=
  if !HasPrefix line (str "1:") then []
  else
    let fields := Split line 58
    if fields.length ≠ 3 then []
    else
      let path := fields.getD 2 []
      let parts := Split path 47
      scanParts parts

/-- The loop `for _, line := range lines`: it stops at the first line that leaves `id`
non-empty. -/
def scanLines : List GoString → GoString
  | [] => []
  | line :: rest =>
    let id := lineId line
    if id ≠ [] then id else scanLines rest

/-- The value of `id` at line 140 for a cgroup file with the given content. -/
def extractId (content : GoString) : GoString := scanLines (Split content 10)

/-! ## Update: snapshot and diff (lines 93-156) -/

/-- The body of `for _, proc := range procs`, as a transformer of
`(nextPidmap, pidmapToAdd)`. -/
def procStep (pidmap : GoMap) (fs : HostProc) (st : GoMap × GoMap) (proc : GoString) :
    GoMap × GoMap :=
  match Atoi proc with
  | none => st
  | some pid =>
    match fs.cgroup proc with
    | none => st
    | some content =>
      let id := extractId content
      if id ≠ [] then
        let nextPidmap := st.1.insert (uint32 pid) id
        match pidmap.lookup (uint32 pid) with
        | none => (nextPidmap, st.2.insert (uint32 pid) id)
        | some previousId =>
          if previousId ≠ id then (nextPidmap, st.2.insert (uint32 pid) id)
          else (nextPidmap, st.2)
      else st

/-- The loop `for _, proc := range procs`. -/
def procLoop (pidmap : GoMap) (fs : HostProc) (procs : List GoString) (st : GoMap × GoMap) :
    GoMap × GoMap :=
  procs.foldl (procStep pidmap fs) st

/-- The body of `for pid, v := range pm.pidmap`, as a transformer of `pidmapToRemove`. -/
def removeStep (nextPidmap : GoMap) (pidmapToRemove : GoMap) (e : Entry) : GoMap :=
  match nextPidmap.lookup e.1 with
  | none => pidmapToRemove.insert e.1 e.2
  | some _ => pidmapToRemove

/-- The maps `nextPidmap`, `pidmapToAdd` and `pidmapToRemove` at the call of `Apply`. -/
structure Diff where
  nextPidmap : GoMap
  pidmapToAdd : GoMap
  pidmapToRemove : GoMap

/-- Lines 83-156 of `Update`. -/
def computeDiff (o : RangeOrder) (pm : PidMap) (fs : HostProc) : Diff :=
  let procs := (Readdirnames fs).1
  let st := procLoop pm.pidmap fs procs (∅, ∅)
  let pidmapToRemove := (o.order pm.pidmap).foldl (removeStep st.1) ∅
  ⟨st.1, st.2, pidmapToRemove⟩

/-! ## Encoding of keys and values -/

/-- The digits that Go's `fmt` uses for the verb `%x`. -/
def ldigits : GoString := str "0123456789abcdef"

/-- Go `fmt.Sprintf("%02x", b)` for a byte. -/
def sprintf02x (b : Byte) : GoString := [ldigits.getD (b.val / 16) 0, ldigits.getD (b.val % 16) 0]

/-- Go `binary.LittleEndian.PutUint32` into a fresh slice of four bytes. -/
def PutUint32 (v : Uint32) : List Byte :=
  [Fin.ofNat v.val, Fin.ofNat (v.val / 256), Fin.ofNat (v.val / 65536),
   Fin.ofNat (v.val / 16777216)]

def uint32ToHex (v : Uint32) : List GoString :=
  let bytes := PutUint32 v
  let hexStr := sprintf02x (bytes.getD 0 0) ++ (32 :: (sprintf02x (bytes.getD 1 0)
    ++ (32 :: (sprintf02x (bytes.getD 2 0) ++ (32 :: sprintf02x (bytes.getD 3 0))))))
  Split hexStr 32

def stringToHex (s : GoString) : List GoString :=
  s.foldl (fun out v => out ++ [sprintf02x v]) []

/-! ## Apply -/

/-- The program and arguments of one `exec.Command`. -/
structure Command where
  prog : GoString
  args : List GoString
deriving DecidableEq

def pidmapPath : GoString := str "/sys/fs/bpf/pidmap"

/-- The command built in the first loop of `Apply`. -/
def deleteCommand (k : Uint32) : Command :=
  ⟨str "bpftool",
   [str "map", str "delete", str "pinned", pidmapPath, str "key", str "hex"] ++ uint32ToHex k⟩

/-- The command built in the second loop of `Apply`. -/
def updateCommand (k : Uint32) (v : GoString) : Command :=
  ⟨str "bpftool",
   (([str "map", str "update", str "pinned", pidmapPath, str "key", str "hex"] ++ uint32ToHex k)
      ++ [str "value", str "hex"]) ++ stringToHex v⟩

/-- What a loop of `Apply` leaves behind: whether it hit `return` after a failed command, the
world, and the commands it ran, in order. -/
structure LoopResult (σ : Type) where
  failed : Bool
  world : σ
  cmds : List Command

/-- The loop `for k, _ := range pidmapToRemove` over the entries in visiting order. -/
def deleteLoop {σ : Type} (exec : Command → σ → Bool × σ) : List Entry → σ → LoopResult σ
  | [], w => ⟨false, w, []⟩
  | e :: rest, w =>
    let r := exec (deleteCommand e.1) w
    if r.1 then ⟨true, r.2, [deleteCommand e.1]⟩
    else
      let t := deleteLoop exec rest r.2
      ⟨t.failed, t.world, deleteCommand e.1 :: t.cmds⟩

/-- The loop `for k, v := range pidmapToAdd` over the entries in visiting order. -/
def updateLoop {σ : Type} (exec : Command → σ → Bool × σ) : List Entry → σ → LoopResult σ
  | [], w => ⟨false, w, []⟩
  | e :: rest, w =>
    let r := exec (updateCommand e.1 e.2) w
    if r.1 then ⟨true, r.2, [updateCommand e.1 e.2]⟩
    else
      let t := updateLoop exec rest r.2
      ⟨t.failed, t.world, updateCommand e.1 e.2 :: t.cmds⟩

/-- `Apply` (lines 179-223): nothing when both maps are empty; else the delete loop, and the
update loop unless a delete failed.  Returns the world afterwards and the commands run, in
order. -/
def Apply {σ : Type} (exec : Command → σ → Bool × σ) (o : Orders)
    (pidmapToAdd pidmapToRemove : GoMap) (w : σ) : σ × List Command :=
  if pidmapToAdd.entries.length = 0 ∧ pidmapToRemove.entries.length = 0 then (w, [])
  else
    let d := deleteLoop exec (o.toRemove.order pidmapToRemove) w
    if d.failed then (d.world, d.cmds)
    else
      let u := updateLoop exec (o.toAdd.order pidmapToAdd) d.world
      (u.world, d.cmds ++ u.cmds)

/-- What one call of `Update` leaves behind. -/
structure Tick (σ : Type) where
  pm : PidMap
  world : σ
  cmds : List Command

/-- One tick, `Update` (lines 82-160): the diff, then `Apply`, then `pm.pidmap = nextPidmap`
whatever `Apply` did. -/
def Update {σ : Type} (exec : Command → σ → Bool × σ) (o : Orders) (pm : PidMap)
    (fs : HostProc) (w : σ) : Tick σ :=
  let d := computeDiff o.previous pm fs
  let r := Apply exec o d.pidmapToAdd d.pidmapToRemove w
  ⟨⟨d.nextPidmap⟩, r.1, r.2⟩

/-! ## The listing seen as a list of entries -/

/-- The entry that one name of the listing contributes to `nextPidmap`, if any. -/
def entryOf (fs : HostProc) (proc : GoString) : Option (Uint32 × GoString) :=
  match Atoi proc with
  | none => none
  | some pid =>
    match fs.cgroup proc with
    | none => none
    | some content => if extractId content ≠ [] then some (uint32 pid, extractId content) else none

/-- The entries contributed by the names of the listing, in listing order. -/
def listed (fs : HostProc) : List (Uint32 × GoString) :=
  (Readdirnames fs).1.filterMap (entryOf fs)

/-- No two names of the listing that yield a container id denote the same `uint32` pid. -/
def DistinctPids (fs : HostProc) : Prop := ((listed fs).map Prod.fst).Nodup

instance (fs : HostProc) : Decidable (DistinctPids fs) := by
  unfold DistinctPids; infer_instance

/-- The effect of `procStep` for a name that contributes the entry `e`. -/
def entryStep (pidmap : GoMap) (st : GoMap × GoMap) (e : Uint32 × GoString) : GoMap × GoMap :=
  (st.1.insert e.1 e.2, if pidmap.lookup e.1 = some e.2 then st.2 else st.2.insert e.1 e.2)

/-! ## Decoding -/

/-- The value of a lowercase hexadecimal digit. -/
def fromHexChar (c : Byte) : Option Nat :=
  if 48 ≤ c.val ∧ c.val ≤ 57 then some (c.val - 48)
  else if 97 ≤ c.val ∧ c.val ≤ 102 then some (c.val - 97 + 10)
  else none

/-- The value of a token made of exactly two lowercase hexadecimal digits. -/
def hexByteValue (tok : GoString) : Option Nat :=
  match tok with
  | [h, l] =>
    match fromHexChar h, fromHexChar l with
    | some a, some b => some (16 * a + b)
    | _, _ => none
  | _ => none

/-- The bytes that a list of two-digit hexadecimal tokens denotes. -/
def parseHexBytes : List GoString → Option (List Byte)
  | [] => some []
  | t :: ts =>
    match hexByteValue t, parseHexBytes ts with
    | some b, some bs => some (Fin.ofNat b :: bs)
    | _, _ => none

/-- The number that a list of bytes denotes in little-endian order. -/
def fromLittleEndian : List Byte → Nat
  | [] => 0
  | b :: bs => b.val + 256 * fromLittleEndian bs

/-! ## The external store -/

/-- The content of the external key-value store: the value bytes at each key. -/
abbrev Store := List Byte → Option (List Byte)

def Store.erase (s : Store) (key : List Byte) : Store := fun k => if k = key then none else s k

def Store.set (s : Store) (key val : List Byte) : Store :=
  fun k => if k = key then some val else s k

/-- Modelled from the spec: the external key-value store of section 6, reached through the
`bpftool` command line, which is not part of the repository.  `map delete pinned <path> key hex
k0 k1 k2 k3` removes the entry at the four-byte key, `map update pinned <path> key hex k0 k1 k2
k3 value hex v...` writes the value bytes at that key; both succeed.  Any other command is
refused and leaves the store as it is.  Returns whether the command failed, and the store. -/
def bpftool (c : Command) (s : Store) : Bool × Store :=
  match c.args with
  | m :: op :: pinned :: path :: key :: hex :: k0 :: k1 :: k2 :: k3 :: rest =>
    if c.prog = str "bpftool" ∧ m = str "map" ∧ pinned = str "pinned" ∧ path = pidmapPath
        ∧ key = str "key" ∧ hex = str "hex" then
      match parseHexBytes [k0, k1, k2, k3] with
      | none => (true, s)
      | some kb =>
        if op = str "delete" then
          if rest = [] then (false, s.erase kb) else (true, s)
        else if op = str "update" then
          match rest with
          | value :: hex2 :: vals =>
            if value = str "value" ∧ hex2 = str "hex" then
              match parseHexBytes vals with
              | some vb => (false, s.set kb vb)
              | none => (true, s)
            else (true, s)
          | _ => (true, s)
        else (true, s)
    else (true, s)
  | _ => (true, s)

/-- A store command that always fails and changes nothing. -/
def failing (_ : Command) (s : Store) : Bool × Store := (true, s)

/-- The store holds exactly the entries of the snapshot: the key of an entry is the
little-endian encoding of its pid, the value the bytes of its container id. -/
def Holds (s : Store) (m : GoMap) : Prop :=
  ∀ key val, s key = some val ↔ ∃ pid, key = PutUint32 pid ∧ m.lookup pid = some val

/-- The store that holds exactly the entries of a snapshot. -/
def storeOf (m : GoMap) : Store :=
  fun key => (m.entries.find? (fun e => decide (PutUint32 e.1 = key))).map (fun e => e.2)

/-! ## Rules of the extraction, by position -/

/-- The docker rule matches at position `i`: the segment is `docker` or `docker.service` and a
following segment exists. -/
def DockerAt (parts : List GoString) (i : Nat) : Prop :=
  (parts.get? i = some (str "docker") ∨ parts.get? i = some (str "docker.service")) ∧
    i + 1 < parts.length

/-- The kubepods rule matches at position `i`: the segment is `kubepods` and at least three
further segments exist. -/
def KubepodsAt (parts : List GoString) (i : Nat) : Prop :=
  parts.get? i = some (str "kubepods") ∧ i + 3 < parts.length

/-- No rule matches at a position before `i`. -/
def NoMatchBefore (parts : List GoString) (i : Nat) : Prop :=
  ∀ j, j < i → ¬ DockerAt parts j ∧ ¬ KubepodsAt parts j

instance (parts : List GoString) (i : Nat) : Decidable (DockerAt parts i) := by
  unfold DockerAt; infer_instance

instance (parts : List GoString) (i : Nat) : Decidable (KubepodsAt parts i) := by
  unfold KubepodsAt; infer_instance

instance (parts : List GoString) (i : Nat) : Decidable (NoMatchBefore parts i) := by
  unfold NoMatchBefore; infer_instance

/-! ## Concrete inputs -/

/-- A cgroup file whose only line puts the process in docker container `id`. -/
def dockerCgroup (id : String) : GoString := str "1:name=systemd:/docker/" ++ str id ++ str "\n"

/-- Previous snapshot of the end-to-end scenario: `{100: "A", 200: "B"}`. -/
def scenarioPrevious : PidMap := ⟨AList.insert 200 (str "B") (AList.insert 100 (str "A") ∅)⟩

/-- Process table of the end-to-end scenario: process 200 in container `C`, process 300 in
container `D`, process 100 gone; `self` is not a number and `7` has no container. -/
def scenarioTable : HostProc :=
  ⟨false, [str "self", str "7", str "200", str "300"], false, fun name =>
    if name = str "200" then some (dockerCgroup "C")
    else if name = str "300" then some (dockerCgroup "D")
    else if name = str "7" then some (str "0::/init.scope\n")
    else none⟩

/-- A directory in which the names `1` and `01` both denote pid 1: `1` is listed first and is in
container `B`, `01` is in container `A`. -/
def twoNamesTable : HostProc :=
  ⟨false, [str "1", str "01"], false, fun name =>
    if name = str "1" then some (dockerCgroup "B")
    else if name = str "01" then some (dockerCgroup "A")
    else none⟩

/-- Previous snapshot `{1: "A"}`. -/
def oneEntry : PidMap := ⟨AList.insert 1 (str "A") ∅⟩

/-- A process table that cannot be opened. -/
def unreadableTable : HostProc := ⟨true, [], true, fun _ => none⟩

/-- A process table with the single process 7, in container `c`. -/
def singleTable : HostProc :=
  ⟨false, [str "7"], false, fun name => if name = str "7" then some (dockerCgroup "c") else none⟩

/-! ## Runs of commands -/

/-- The world after running the commands one after the other. -/
def runAll {σ : Type} (exec : Command → σ → Bool × σ) : List Command → σ → σ
  | [], w => w
  | c :: cs, w => runAll exec cs (exec c w).2

/-- Running the commands one after the other up to and including the first that fails. -/
def runUntilFailure {σ : Type} (exec : Command → σ → Bool × σ) :
    List Command → σ → LoopResult σ
  | [], w => ⟨false, w, []⟩
  | c :: cs, w =>
    let r := exec c w
    if r.1 then ⟨true, r.2, [c]⟩
    else
      let t := runUntilFailure exec cs r.2
      ⟨t.failed, t.world, c :: t.cmds⟩

/-- The delete commands of `Apply` for the remove set, in visiting order. -/
def deleteCommands (o : Orders) (pidmapToRemove : GoMap) : List Command :=
  (o.toRemove.order pidmapToRemove).map (fun e => deleteCommand e.1)

/-- The update commands of `Apply` for the add set, in visiting order. -/
def updateCommands (o : Orders) (pidmapToAdd : GoMap) : List Command :=
  (o.toAdd.order pidmapToAdd).map (fun e => updateCommand e.1 e.2)

/-! ## Further concrete inputs -/

/-- Previous snapshot `{5: "A"}`. -/
def fiveEntry : PidMap := ⟨AList.insert 5 (str "A") ∅⟩

/-- A directory in which the names `5` and `+5` both denote pid 5: `5` is listed first and is in
container `B`, `+5` is in container `A`. -/
def signedNamesTable : HostProc :=
  ⟨false, [str "5", str "+5"], false, fun name =>
    if name = str "5" then some (dockerCgroup "B")
    else if name = str "+5" then some (dockerCgroup "A")
    else none⟩

/-- An identifier of 65 bytes. -/
def longId : String := "0123456789abcdef0123456789abcdef0123456789abcdef0123456789abcdef0"

/-- A process table with the single process 9, whose docker path segment is `longId`. -/
def longTable : HostProc :=
  ⟨false, [str "9"], false, fun name => if name = str "9" then some (dockerCgroup longId) else none⟩

/-! ## Lemmas -/

theorem procStep_eq (pidmap : GoMap) (fs : HostProc) (st : GoMap × GoMap) (proc : GoString) :
    procStep pidmap fs st proc =
      match entryOf fs proc with
      | none => st
      | some e => entryStep pidmap st e := by
  unfold procStep entryOf entryStep
  cases hA : Atoi proc with
  | none => rfl
  | some pid =>
    cases hC : fs.cgroup proc with
    | none => rfl
    | some content =>
      by_cases hid : extractId content = []
      · simp [hid]
      · cases hP : pidmap.lookup (uint32 pid) with
        | none => simp [hid, hP]
        | some previousId =>
          by_cases hq : previousId = extractId content
          · simp [hid, hP, hq]
          · simp [hid, hP, hq]

theorem procLoop_eq (pidmap : GoMap) (fs : HostProc) (procs : List GoString)
    (st : GoMap × GoMap) :
    procLoop pidmap fs procs st = (procs.filterMap (entryOf fs)).foldl (entryStep pidmap) st := by
  unfold procLoop
  induction procs generalizing st with
  | nil => rfl
  | cons p ps ih =>
    rw [List.foldl_cons, ih, procStep_eq]
    cases h : entryOf fs p with
    | none => simp [List.filterMap_cons, h]
    | some e => simp [List.filterMap_cons, h]

/-- A key that no entry of `es` has keeps its value in both maps. -/
theorem foldl_entryStep_lookup_of_not_mem (pidmap : GoMap) (k : Uint32)
    (es : List (Uint32 × GoString)) (st : GoMap × GoMap) (h : k ∉ es.map Prod.fst) :
    ((es.foldl (entryStep pidmap) st).1.lookup k = st.1.lookup k) ∧
    ((es.foldl (entryStep pidmap) st).2.lookup k = st.2.lookup k) := by
  induction es generalizing st with
  | nil => exact ⟨rfl, rfl⟩
  | cons e es ih =>
    simp only [List.map_cons, List.mem_cons, not_or] at h
    rw [List.foldl_cons]
    obtain ⟨h1, h2⟩ := ih (entryStep pidmap st e) h.2
    rw [h1, h2]
    unfold entryStep
    refine ⟨AList.lookup_insert_ne h.1, ?_⟩
    dsimp only
    split
    · rfl
    · exact AList.lookup_insert_ne h.1

/-- Every entry of the two maps comes from the start state or from `es`. -/
theorem foldl_entryStep_sound (pidmap : GoMap) (k : Uint32) (cid : GoString)
    (es : List (Uint32 × GoString)) (st : GoMap × GoMap) :
    ((es.foldl (entryStep pidmap) st).1.lookup k = some cid →
      (k, cid) ∈ es ∨ st.1.lookup k = some cid) ∧
    ((es.foldl (entryStep pidmap) st).2.lookup k = some cid →
      ((k, cid) ∈ es ∧ pidmap.lookup k ≠ some cid) ∨ st.2.lookup k = some cid) := by
  induction es generalizing st with
  | nil => exact ⟨fun h => Or.inr h, fun h => Or.inr h⟩
  | cons e es ih =>
    rw [List.foldl_cons]
    obtain ⟨h1, h2⟩ := ih (entryStep pidmap st e)
    constructor
    · intro h
      rcases h1 h with h | h
      · exact Or.inl (List.mem_cons_of_mem _ h)
      · unfold entryStep at h
        by_cases hk : k = e.1
        · subst hk
          rw [AList.lookup_insert] at h
          left
          have : e.2 = cid := Option.some.inj h
          subst this
          exact List.mem_cons_self _ _
        · rw [AList.lookup_insert_ne hk] at h
          exact Or.inr h
    · intro h
      rcases h2 h with h | h
      · exact Or.inl ⟨List.mem_cons_of_mem _ h.1, h.2⟩
      · unfold entryStep at h
        dsimp only at h
        split at h
        · exact Or.inr h
        · rename_i hne
          by_cases hk : k = e.1
          · subst hk
            rw [AList.lookup_insert] at h
            have : e.2 = cid := Option.some.inj h
            subst this
            exact Or.inl ⟨List.mem_cons_self _ _, hne⟩
          · rw [AList.lookup_insert_ne hk] at h
            exact Or.inr h

/-- Invariant of the listing loop: an entry of `nextPidmap` that `pm.pidmap` does not have is in
`pidmapToAdd`. -/
theorem foldl_entryStep_add_of_next (pidmap : GoMap) (es : List (Uint32 × GoString))
    (st : GoMap × GoMap)
    (hst : ∀ k cid, st.1.lookup k = some cid → pidmap.lookup k ≠ some cid →
      st.2.lookup k = some cid) :
    ∀ k cid, (es.foldl (entryStep pidmap) st).1.lookup k = some cid →
      pidmap.lookup k ≠ some cid → (es.foldl (entryStep pidmap) st).2.lookup k = some cid := by
  induction es generalizing st with
  | nil => exact hst
  | cons e es ih =>
    rw [List.foldl_cons]
    apply ih
    intro k cid h1 h2
    unfold entryStep at h1 ⊢
    dsimp only at h1 ⊢
    by_cases hk : k = e.1
    · subst hk
      rw [AList.lookup_insert] at h1
      have : e.2 = cid := Option.some.inj h1
      subst this
      rw [if_neg h2, AList.lookup_insert]
    · rw [AList.lookup_insert_ne hk] at h1
      split
      · exact hst k cid h1 h2
      · rw [AList.lookup_insert_ne hk]
        exact hst k cid h1 h2

/-- With distinct keys, every entry of `es` is in `nextPidmap`. -/
theorem foldl_entryStep_next_of_mem (pidmap : GoMap) (k : Uint32) (cid : GoString)
    (es : List (Uint32 × GoString)) (st : GoMap × GoMap) (hnd : (es.map Prod.fst).Nodup)
    (hmem : (k, cid) ∈ es) : (es.foldl (entryStep pidmap) st).1.lookup k = some cid := by
  induction es generalizing st with
  | nil => cases hmem
  | cons e es ih =>
    rw [List.map_cons, List.nodup_cons] at hnd
    rw [List.foldl_cons]
    rcases List.mem_cons.1 hmem with h | h
    · subst h
      rw [(foldl_entryStep_lookup_of_not_mem pidmap k es _ hnd.1).1]
      exact AList.lookup_insert _
    · exact ih _ hnd.2 h

theorem computeDiff_next (o : RangeOrder) (pm : PidMap) (fs : HostProc) :
    (computeDiff o pm fs).nextPidmap = ((listed fs).foldl (entryStep pm.pidmap) (∅, ∅)).1 := by
  unfold computeDiff listed
  simp only [procLoop_eq]

theorem computeDiff_add (o : RangeOrder) (pm : PidMap) (fs : HostProc) :
    (computeDiff o pm fs).pidmapToAdd = ((listed fs).foldl (entryStep pm.pidmap) (∅, ∅)).2 := by
  unfold computeDiff listed
  simp only [procLoop_eq]

theorem computeDiff_remove (o : RangeOrder) (pm : PidMap) (fs : HostProc) :
    (computeDiff o pm fs).pidmapToRemove =
      (o.order pm.pidmap).foldl (removeStep (computeDiff o pm fs).nextPidmap) ∅ := by
  unfold computeDiff
  rfl

/-- An entry of `nextPidmap` that differs from `pm.pidmap` is in `pidmapToAdd` (any listing). -/
theorem add_of_next (o : RangeOrder) (pm : PidMap) (fs : HostProc) (k : Uint32) (cid : GoString)
    (h1 : (computeDiff o pm fs).nextPidmap.lookup k = some cid)
    (h2 : pm.pidmap.lookup k ≠ some cid) :
    (computeDiff o pm fs).pidmapToAdd.lookup k = some cid := by
  rw [computeDiff_next] at h1
  rw [computeDiff_add]
  refine foldl_entryStep_add_of_next pm.pidmap (listed fs) (∅, ∅) ?_ k cid h1 h2
  intro k cid h
  simp [AList.lookup_empty] at h

/-- With distinct pids, the add set is exactly the entries of the new snapshot that the previous
snapshot lacks or has with another container id. -/
theorem add_iff (o : RangeOrder) (pm : PidMap) (fs : HostProc) (hd : DistinctPids fs)
    (k : Uint32) (cid : GoString) :
    (computeDiff o pm fs).pidmapToAdd.lookup k = some cid ↔
      ((computeDiff o pm fs).nextPidmap.lookup k = some cid ∧
        pm.pidmap.lookup k ≠ some cid) := by
  constructor
  · intro h
    rw [computeDiff_add] at h
    rcases (foldl_entryStep_sound pm.pidmap k cid (listed fs) (∅, ∅)).2 h with h | h
    · refine ⟨?_, h.2⟩
      rw [computeDiff_next]
      exact foldl_entryStep_next_of_mem pm.pidmap k cid (listed fs) _ hd h.1
    · simp [AList.lookup_empty] at h
  · intro h
    exact add_of_next o pm fs k cid h.1 h.2

/-- The removal loop over entries with distinct keys. -/
theorem foldl_removeStep_lookup (next : GoMap) (k : Uint32) (v : GoString) (l : List Entry)
    (acc : GoMap) (hnd : (l.map Sigma.fst).Nodup) :
    (l.foldl (removeStep next) acc).lookup k = some v ↔
      ((Sigma.mk k v ∈ l ∧ next.lookup k = none) ∨
        (¬ (k ∈ l.map Sigma.fst ∧ next.lookup k = none) ∧ acc.lookup k = some v)) := by
  induction l generalizing acc with
  | nil => simp
  | cons e l ih =>
    rw [List.map_cons, List.nodup_cons] at hnd
    rw [List.foldl_cons, ih _ hnd.2]
    obtain ⟨ek, ev⟩ := e
    have hkeys : ∀ w : GoString, (Sigma.mk k w : Entry) ∈ l → k ∈ l.map Sigma.fst :=
      fun w hw => List.mem_map_of_mem Sigma.fst hw
    simp only [List.mem_cons, List.map_cons]
    unfold removeStep
    dsimp only
    by_cases hk : k = ek
    · subst hk
      have hnot : ∀ w : GoString, (Sigma.mk k w : Entry) ∉ l := fun w hw => hnd.1 (hkeys w hw)
      cases hn : next.lookup k with
      | none =>
        simp only [AList.lookup_insert, hnot, false_and, false_or, and_true, true_or,
          not_true_eq_false, or_false, hnd.1, not_false_eq_true, true_and, Option.some.injEq]
        constructor
        · intro h
          subst h
          rfl
        · intro h
          have := congrArg Sigma.snd h
          exact this.symm
      | some x =>
        simp
    · have hne : ¬ ((Sigma.mk k v : Entry) = Sigma.mk ek ev) := by
        intro h
        exact hk (congrArg Sigma.fst h)
      cases hn : next.lookup ek with
      | none =>
        simp only [AList.lookup_insert_ne hk, hne, false_or, hk]
      | some x =>
        simp only [hne, false_or, hk]

/-- The remove set is exactly the entries of the previous snapshot whose pid the new snapshot
lacks. -/
theorem remove_iff (o : RangeOrder) (pm : PidMap) (fs : HostProc) (k : Uint32) (v : GoString) :
    (computeDiff o pm fs).pidmapToRemove.lookup k = some v ↔
      (pm.pidmap.lookup k = some v ∧ (computeDiff o pm fs).nextPidmap.lookup k = none) := by
  have hp := o.perm pm.pidmap
  have hnd : ((o.order pm.pidmap).map Sigma.fst).Nodup := by
    have : ((o.order pm.pidmap).map Sigma.fst).Perm (pm.pidmap.entries.map Sigma.fst) := hp.map _
    exact this.nodup_iff.2 pm.pidmap.keys_nodup
  rw [computeDiff_remove, foldl_removeStep_lookup _ k v _ ∅ hnd]
  simp only [AList.lookup_empty, and_false, or_false, reduceCtorEq]
  rw [hp.mem_iff, ← AList.mem_lookup_iff]
  simp [Option.mem_def]

set_option maxRecDepth 100000 in
theorem hexByteValue_sprintf02x : ∀ b : Byte, hexByteValue (sprintf02x b) = some b.val := by
  decide

set_option maxRecDepth 100000 in
theorem sprintf02x_no_space : ∀ b : Byte, (32 : Byte) ∉ sprintf02x b := by
  decide

theorem Split_of_not_mem (s : GoString) (sep : Byte) (h : sep ∉ s) : Split s sep = [s] := by
  induction s with
  | nil => rfl
  | cons c cs ih =>
    simp only [List.mem_cons, not_or] at h
    unfold Split
    rw [if_neg (fun e => h.1 e.symm), ih h.2]

theorem Split_append_sep (a rest : GoString) (sep : Byte) (h : sep ∉ a) :
    Split (a ++ sep :: rest) sep = a :: Split rest sep := by
  induction a with
  | nil =>
    show Split (sep :: rest) sep = _
    rw [Split]
    simp
  | cons c cs ih =>
    simp only [List.mem_cons, not_or] at h
    show Split (c :: (cs ++ sep :: rest)) sep = _
    rw [Split, if_neg (fun e => h.1 e.symm), ih h.2]

theorem uint32ToHex_eq (v : Uint32) : uint32ToHex v = (PutUint32 v).map sprintf02x := by
  unfold uint32ToHex PutUint32
  simp only [List.getD_cons_zero, List.getD_cons_succ, List.map_cons, List.map_nil]
  rw [Split_append_sep _ _ _ (sprintf02x_no_space _)]
  rw [Split_append_sep _ _ _ (sprintf02x_no_space _)]
  rw [Split_append_sep _ _ _ (sprintf02x_no_space _)]
  rw [Split_of_not_mem _ _ (sprintf02x_no_space _)]

theorem stringToHex_eq (s : GoString) : stringToHex s = s.map sprintf02x := by
  unfold stringToHex
  have : ∀ (acc : List GoString),
      s.foldl (fun out v => out ++ [sprintf02x v]) acc = acc ++ s.map sprintf02x := by
    induction s with
    | nil => intro acc; simp
    | cons c cs ih => intro acc; simp [List.foldl_cons, ih]
  simpa using this []

theorem parseHexBytes_map_sprintf02x (bs : List Byte) :
    parseHexBytes (bs.map sprintf02x) = some bs := by
  induction bs with
  | nil => rfl
  | cons b bs ih =>
    simp only [List.map_cons, parseHexBytes, hexByteValue_sprintf02x, ih]
    congr
    exact Fin.ext (Nat.mod_eq_of_lt b.isLt)

theorem fromLittleEndian_PutUint32 (v : Uint32) : fromLittleEndian (PutUint32 v) = v.val := by
  have hv := v.isLt
  simp only [PutUint32, fromLittleEndian, Fin.ofNat]
  omega

theorem PutUint32_injective (v w : Uint32) (h : PutUint32 v = PutUint32 w) : v = w := by
  apply Fin.ext
  rw [← fromLittleEndian_PutUint32 v, ← fromLittleEndian_PutUint32 w, h]

theorem PutUint32_val (v : Uint32) (i : Nat) (hi : i < 4) :
    ((PutUint32 v).getD i 0).val = v.val / 256 ^ i % 256 := by
  have hv := v.isLt
  interval_cases i <;> simp [PutUint32, Fin.ofNat]

theorem PutUint32_eq (k : Uint32) : ∃ a b c d : Byte, PutUint32 k = [a, b, c, d] :=
  ⟨_, _, _, _, rfl⟩

theorem bpftool_deleteCommand (k : Uint32) (s : Store) :
    bpftool (deleteCommand k) s = (false, s.erase (PutUint32 k)) := by
  have hp := parseHexBytes_map_sprintf02x (PutUint32 k)
  obtain ⟨a, b, c, d, h⟩ := PutUint32_eq k
  rw [h] at hp
  simp only [List.map_cons, List.map_nil] at hp
  unfold bpftool deleteCommand
  rw [uint32ToHex_eq, h]
  simp only [List.map_cons, List.map_nil, List.cons_append, List.nil_append, hp]
  simp [pidmapPath]

theorem bpftool_updateCommand (k : Uint32) (v : GoString) (s : Store) :
    bpftool (updateCommand k v) s = (false, s.set (PutUint32 k) v) := by
  have hp := parseHexBytes_map_sprintf02x (PutUint32 k)
  have hv := parseHexBytes_map_sprintf02x v
  obtain ⟨a, b, c, d, h⟩ := PutUint32_eq k
  rw [h] at hp
  simp only [List.map_cons, List.map_nil] at hp
  unfold bpftool updateCommand
  rw [uint32ToHex_eq, stringToHex_eq, h]
  simp only [List.map_cons, List.map_nil, List.cons_append, List.nil_append, hp]
  have hne : ¬ (str "update" = str "delete") := by decide
  simp [pidmapPath, hne, hv]

theorem deleteLoop_bpftool (l : List Entry) (s : Store) :
    deleteLoop bpftool l s =
      ⟨false, l.foldl (fun s e => s.erase (PutUint32 e.1)) s, l.map (fun e => deleteCommand e.1)⟩ := by
  induction l generalizing s with
  | nil => rfl
  | cons e l ih =>
    simp only [deleteLoop, bpftool_deleteCommand, ih, List.foldl_cons, List.map_cons]
    simp

theorem updateLoop_bpftool (l : List Entry) (s : Store) :
    updateLoop bpftool l s =
      ⟨false, l.foldl (fun s e => s.set (PutUint32 e.1) e.2) s,
        l.map (fun e => updateCommand e.1 e.2)⟩ := by
  induction l generalizing s with
  | nil => rfl
  | cons e l ih =>
    simp only [updateLoop, bpftool_updateCommand, ih, List.foldl_cons, List.map_cons]
    simp

theorem foldl_erase_apply (l : List Entry) (s : Store) (key : List Byte) :
    (l.foldl (fun s e => s.erase (PutUint32 e.1)) s) key =
      if key ∈ l.map (fun e => PutUint32 e.1) then none else s key := by
  induction l generalizing s with
  | nil => simp
  | cons e l ih =>
    rw [List.foldl_cons, ih]
    simp only [List.map_cons, List.mem_cons, Store.erase]
    by_cases h1 : key ∈ l.map (fun e => PutUint32 e.1)
    · simp [h1]
    · by_cases h2 : key = PutUint32 e.1
      · simp [h1, h2]
      · simp [h1, h2]

theorem foldl_erase_apply_some (l : List Entry) (s : Store) (key val : List Byte) :
    (l.foldl (fun s e => s.erase (PutUint32 e.1)) s) key = some val ↔
      (key ∉ l.map (fun e => PutUint32 e.1) ∧ s key = some val) := by
  rw [foldl_erase_apply]
  by_cases h : key ∈ l.map (fun e => PutUint32 e.1)
  · simp [h]
  · simp [h]

theorem foldl_set_apply (l : List Entry) (s : Store) (key val : List Byte)
    (hnd : (l.map Sigma.fst).Nodup) :
    (l.foldl (fun s e => s.set (PutUint32 e.1) e.2) s) key = some val ↔
      ((∃ pid, key = PutUint32 pid ∧ Sigma.mk pid val ∈ l) ∨
        (key ∉ l.map (fun e => PutUint32 e.1) ∧ s key = some val)) := by
  induction l generalizing s with
  | nil => simp
  | cons e l ih =>
    rw [List.map_cons, List.nodup_cons] at hnd
    rw [List.foldl_cons, ih _ hnd.2]
    obtain ⟨ek, ev⟩ := e
    simp only [List.map_cons, List.mem_cons, not_or, Store.set]
    by_cases hk : key = PutUint32 ek
    · subst hk
      have hnot : ∀ w : GoString, (Sigma.mk ek w : Entry) ∉ l :=
        fun w hw => hnd.1 (List.mem_map.2 ⟨_, hw, rfl⟩)
      have hnk : PutUint32 ek ∉ l.map (fun e => PutUint32 e.1) := by
        intro hm
        obtain ⟨e', he', heq⟩ := List.mem_map.1 hm
        have := PutUint32_injective _ _ heq
        exact hnd.1 (List.mem_map.2 ⟨e', he', this⟩)
      constructor
      · rintro (⟨pid, hp, hm⟩ | ⟨_, h⟩)
        · have := PutUint32_injective _ _ hp
          subst this
          exact absurd hm (hnot _)
        · simp only [if_true] at h
          have : ev = val := Option.some.inj h
          subst this
          exact Or.inl ⟨ek, rfl, Or.inl rfl⟩
      · rintro (⟨pid, hp, hm⟩ | ⟨h, _⟩)
        · have := PutUint32_injective _ _ hp
          subst this
          rcases hm with hm | hm
          · have : val = ev := by
              have := congrArg Sigma.snd hm
              simpa using this
            subst this
            exact Or.inr ⟨hnk, by simp⟩
          · exact absurd hm (hnot _)
        · exact absurd rfl h.1
    · simp only [hk, if_false, not_false_eq_true, true_and]
      constructor
      · rintro (⟨pid, hp, hm⟩ | h)
        · exact Or.inl ⟨pid, hp, Or.inr hm⟩
        · exact Or.inr h
      · rintro (⟨pid, hp, hm⟩ | h)
        · rcases hm with hm | hm
          · have := congrArg Sigma.fst hm
            simp only at this
            subst this
            exact absurd hp hk
          · exact Or.inl ⟨pid, hp, hm⟩
        · exact Or.inr h

theorem order_nodup (o : RangeOrder) (m : GoMap) : ((o.order m).map Sigma.fst).Nodup := by
  have : ((o.order m).map Sigma.fst).Perm (m.entries.map Sigma.fst) := (o.perm m).map _
  exact this.nodup_iff.2 m.keys_nodup

theorem mem_order_iff (o : RangeOrder) (m : GoMap) (k : Uint32) (v : GoString) :
    Sigma.mk k v ∈ o.order m ↔ m.lookup k = some v := by
  rw [(o.perm m).mem_iff, ← AList.mem_lookup_iff]
  simp [Option.mem_def]

theorem order_eq_nil (o : RangeOrder) (m : GoMap) (h : m.entries.length = 0) :
    o.order m = [] := by
  have := o.perm m
  rw [List.length_eq_zero.1 h] at this
  exact List.perm_nil.1 this

/-- With the store model every command of `Apply` succeeds: all removals, then all upserts. -/
theorem Apply_bpftool (o : Orders) (add rem : GoMap) (s : Store) :
    Apply bpftool o add rem s =
      ((o.toAdd.order add).foldl (fun s e => s.set (PutUint32 e.1) e.2)
          ((o.toRemove.order rem).foldl (fun s e => s.erase (PutUint32 e.1)) s),
        (o.toRemove.order rem).map (fun e => deleteCommand e.1) ++
          (o.toAdd.order add).map (fun e => updateCommand e.1 e.2)) := by
  unfold Apply
  split
  · rename_i h
    rw [order_eq_nil _ _ h.1, order_eq_nil _ _ h.2]
    rfl
  · simp only [deleteLoop_bpftool, updateLoop_bpftool]
    simp

theorem holds_storeOf (m : GoMap) : Holds (storeOf m) m := by
  intro key val
  unfold storeOf
  constructor
  · intro h
    simp only [Option.map_eq_some'] at h
    obtain ⟨e, he, hv⟩ := h
    have hm := List.mem_of_find?_eq_some he
    have hk := List.find?_some he
    simp only [decide_eq_true_eq] at hk
    obtain ⟨ek, ev⟩ := e
    simp only at hv hk
    subst hv
    refine ⟨ek, hk.symm, ?_⟩
    have := (AList.mem_lookup_iff (s := m) (a := ek) (b := ev)).2 hm
    simpa [Option.mem_def] using this
  · rintro ⟨pid, hk, hl⟩
    have hm : Sigma.mk pid val ∈ m.entries := by
      have := (AList.mem_lookup_iff (s := m) (a := pid) (b := val)).1 (by simpa [Option.mem_def] using hl)
      exact this
    cases hf : m.entries.find? (fun e => decide (PutUint32 e.1 = key)) with
    | none =>
      have := List.find?_eq_none.1 hf _ hm
      simp [hk] at this
    | some e =>
      have hm' := List.mem_of_find?_eq_some hf
      have hk' := List.find?_some hf
      simp only [decide_eq_true_eq] at hk'
      have : e.1 = pid := PutUint32_injective _ _ (hk'.trans hk)
      obtain ⟨ek, ev⟩ := e
      simp only at this
      subst this
      have h1 := (AList.mem_lookup_iff (s := m) (a := ek) (b := ev)).2 hm'
      rw [Option.mem_def, hl] at h1
      simp only [Option.map_some', Option.some.injEq]
      exact (Option.some.inj h1).symm

/-- Convergence of one tick over the store model, for a listing with distinct pids. -/
theorem Update_bpftool_holds (o : Orders) (pm : PidMap) (fs : HostProc) (s : Store)
    (hs : Holds s pm.pidmap) (hd : DistinctPids fs) :
    Holds (Update bpftool o pm fs s).world (Update bpftool o pm fs s).pm.pidmap := by
  intro key val
  unfold Update
  simp only [Apply_bpftool]
  rw [foldl_set_apply _ _ _ _ (order_nodup _ _)]
  simp only [foldl_erase_apply_some, mem_order_iff]
  set d := computeDiff o.previous pm fs with hd'
  have hmemAdd : key ∈ (o.toAdd.order d.pidmapToAdd).map (fun e => PutUint32 e.1) ↔
      ∃ pid c, key = PutUint32 pid ∧ d.pidmapToAdd.lookup pid = some c := by
    rw [List.mem_map]
    constructor
    · rintro ⟨⟨ek, ev⟩, he, hk⟩
      exact ⟨ek, ev, hk.symm, (mem_order_iff _ _ _ _).1 he⟩
    · rintro ⟨pid, c, hk, hl⟩
      exact ⟨⟨pid, c⟩, (mem_order_iff _ _ _ _).2 hl, hk.symm⟩
  have hmemRem : key ∈ (o.toRemove.order d.pidmapToRemove).map (fun e => PutUint32 e.1) ↔
      ∃ pid c, key = PutUint32 pid ∧ d.pidmapToRemove.lookup pid = some c := by
    rw [List.mem_map]
    constructor
    · rintro ⟨⟨ek, ev⟩, he, hk⟩
      exact ⟨ek, ev, hk.symm, (mem_order_iff _ _ _ _).1 he⟩
    · rintro ⟨pid, c, hk, hl⟩
      exact ⟨⟨pid, c⟩, (mem_order_iff _ _ _ _).2 hl, hk.symm⟩
  rw [hmemAdd, hmemRem]
  constructor
  · rintro (⟨pid, hk, hl⟩ | ⟨hna, hnr, hr⟩)
    · exact ⟨pid, hk, ((add_iff o.previous pm fs hd pid val).1 hl).1⟩
    · · obtain ⟨pid, hk, hl⟩ := (hs key val).1 hr
        refine ⟨pid, hk, ?_⟩
        cases hn : d.nextPidmap.lookup pid with
        | none =>
          exact absurd ⟨pid, val, hk, (remove_iff o.previous pm fs pid val).2 ⟨hl, hn⟩⟩ hnr
        | some c =>
          by_cases hc : c = val
          · rw [hc]
          · have := add_of_next o.previous pm fs pid c hn (by
              rw [hl]; intro h; exact hc (Option.some.inj h).symm)
            exact absurd ⟨pid, c, hk, this⟩ hna
  · rintro ⟨pid, hk, hl⟩
    by_cases hp : pm.pidmap.lookup pid = some val
    · right
      constructor
      · rintro ⟨pid', c, hk', hl'⟩
        have := PutUint32_injective _ _ (hk.symm.trans hk')
        subst this
        have h1 := (add_iff o.previous pm fs hd pid c).1 hl'
        rw [hl] at h1
        have : val = c := Option.some.inj h1.1
        subst this
        exact h1.2 hp
      · refine ⟨?_, (hs key val).2 ⟨pid, hk, hp⟩⟩
        rintro ⟨pid', c, hk', hl'⟩
        have := PutUint32_injective _ _ (hk.symm.trans hk')
        subst this
        have h1 := (remove_iff o.previous pm fs pid c).1 hl'
        rw [hl] at h1
        cases h1.2
    · left
      exact ⟨pid, hk, add_of_next o.previous pm fs pid val hl hp⟩

theorem DockerAt_succ (p : GoString) (rest : List GoString) (j : Nat) :
    DockerAt (p :: rest) (j + 1) ↔ DockerAt rest j := by
  unfold DockerAt
  simp only [List.get?_cons_succ, List.length_cons]
  constructor <;> rintro ⟨a, b⟩ <;> exact ⟨a, by omega⟩

theorem KubepodsAt_succ (p : GoString) (rest : List GoString) (j : Nat) :
    KubepodsAt (p :: rest) (j + 1) ↔ KubepodsAt rest j := by
  unfold KubepodsAt
  simp only [List.get?_cons_succ, List.length_cons]
  constructor <;> rintro ⟨a, b⟩ <;> exact ⟨a, by omega⟩

theorem NoMatchBefore_succ (p : GoString) (rest : List GoString) (i : Nat)
    (h : NoMatchBefore (p :: rest) (i + 1)) : NoMatchBefore rest i := by
  intro j hj
  have := h (j + 1) (by omega)
  rwa [DockerAt_succ, KubepodsAt_succ] at this

/-- When no rule matches at the head, the scan moves on. -/
theorem scanParts_skip (p : GoString) (rest : List GoString)
    (h : ¬ DockerAt (p :: rest) 0 ∧ ¬ KubepodsAt (p :: rest) 0) :
    scanParts (p :: rest) = scanParts rest := by
  obtain ⟨h1, h2⟩ := h
  simp only [DockerAt, KubepodsAt, List.get?_cons_zero, Option.some.injEq, List.length_cons] at h1 h2
  rw [scanParts, if_neg, if_neg]
  · rintro ⟨hp, hl⟩
    exact h2 ⟨hp, by omega⟩
  · rintro ⟨hp, hl⟩
    exact h1 ⟨hp, by omega⟩

theorem scanParts_docker (parts : List GoString) (i : Nat) (hat : DockerAt parts i)
    (hfirst : NoMatchBefore parts i) : scanParts parts = parts.getD (i + 1) [] := by
  induction parts generalizing i with
  | nil => simp [DockerAt] at hat
  | cons p rest ih =>
    cases i with
    | zero =>
      obtain ⟨hp, hl⟩ := hat
      simp only [List.get?_cons_zero, Option.some.injEq, List.length_cons] at hp hl
      rw [scanParts, if_pos ⟨hp, by omega⟩]
      rfl
    | succ i =>
      rw [scanParts_skip p rest (hfirst 0 (by omega))]
      rw [ih i ((DockerAt_succ p rest i).1 hat) (NoMatchBefore_succ p rest i hfirst)]
      rfl

theorem scanParts_kubepods (parts : List GoString) (i : Nat) (hat : KubepodsAt parts i)
    (hfirst : NoMatchBefore parts i) : scanParts parts = parts.getD (i + 3) [] := by
  induction parts generalizing i with
  | nil => simp [KubepodsAt] at hat
  | cons p rest ih =>
    cases i with
    | zero =>
      obtain ⟨hp, hl⟩ := hat
      simp only [List.get?_cons_zero, Option.some.injEq, List.length_cons] at hp hl
      have hd : ¬ (p = str "docker" ∨ p = str "docker.service") := by
        rw [hp]; decide
      rw [scanParts, if_neg (fun h => hd h.1), if_pos ⟨hp, by omega⟩]
      rfl
    | succ i =>
      rw [scanParts_skip p rest (hfirst 0 (by omega))]
      rw [ih i ((KubepodsAt_succ p rest i).1 hat) (NoMatchBefore_succ p rest i hfirst)]
      rfl

theorem scanParts_none (parts : List GoString)
    (h : ∀ seg ∈ parts, seg ≠ str "docker" ∧ seg ≠ str "docker.service" ∧ seg ≠ str "kubepods") :
    scanParts parts = [] := by
  induction parts with
  | nil => rfl
  | cons p rest ih =>
    have hp := h p (List.mem_cons_self _ _)
    rw [scanParts, if_neg, if_neg]
    · exact ih (fun seg hs => h seg (List.mem_cons_of_mem _ hs))
    · exact fun hk => hp.2.2 hk.1
    · rintro ⟨hd | hd, _⟩
      · exact hp.1 hd
      · exact hp.2.1 hd

/-- The fields of a line `1:<controllers>:<path>` without further colons. -/
theorem Split_hierarchy1 (ctrl path : GoString) (hctrl : (58 : Byte) ∉ ctrl)
    (hpath : (58 : Byte) ∉ path) :
    Split (str "1:" ++ ctrl ++ 58 :: path) 58 = [str "1", ctrl, path] := by
  have h1 : str "1:" ++ ctrl ++ 58 :: path = str "1" ++ 58 :: (ctrl ++ 58 :: path) := by
    have : str "1:" = str "1" ++ [58] := by decide
    rw [this]
    simp
  rw [h1, Split_append_sep _ _ _ (by decide), Split_append_sep _ _ _ hctrl,
    Split_of_not_mem _ _ hpath]

theorem HasPrefix_hierarchy1 (rest : GoString) : HasPrefix (str "1:" ++ rest) (str "1:") = true := by
  have : str "1:" = [49, 58] := by decide
  rw [this]
  simp [HasPrefix, List.isPrefixOf]

theorem lineId_hierarchy1 (ctrl path : GoString) (hctrl : (58 : Byte) ∉ ctrl)
    (hpath : (58 : Byte) ∉ path) :
    lineId (str "1:" ++ ctrl ++ 58 :: path) = scanParts (Split path 47) := by
  have hs := Split_hierarchy1 ctrl path hctrl hpath
  have hp : HasPrefix (str "1:" ++ ctrl ++ 58 :: path) (str "1:") = true := by
    rw [List.append_assoc]
    exact HasPrefix_hierarchy1 _
  unfold lineId
  rw [hp, hs]
  rfl

theorem scanLines_append (pre : List GoString) (line : GoString) (post : List GoString)
    (hpre : ∀ l ∈ pre, lineId l = []) (hne : lineId line ≠ []) :
    scanLines (pre ++ line :: post) = lineId line := by
  induction pre with
  | nil => simp [scanLines, hne]
  | cons l ls ih =>
    have hl := hpre l (List.mem_cons_self _ _)
    rw [List.cons_append, scanLines]
    simp only [hl, ne_eq, not_true_eq_false, if_false]
    exact ih (fun x hx => hpre x (List.mem_cons_of_mem _ hx))

theorem scanLines_none (lines : List GoString) (h : ∀ l ∈ lines, lineId l = []) :
    scanLines lines = [] := by
  induction lines with
  | nil => rfl
  | cons l ls ih =>
    rw [scanLines]
    simp only [h l (List.mem_cons_self _ _), ne_eq, not_true_eq_false, if_false]
    exact ih (fun x hx => h x (List.mem_cons_of_mem _ hx))

/-- A line that starts with `1:` has `1` as its first field. -/
theorem Split_of_HasPrefix (line : GoString) (h : HasPrefix line (str "1:") = true) :
    ∃ rest, Split line 58 = str "1" :: rest := by
  have hs : str "1:" = [49, 58] := by decide
  rw [hs] at h
  match line, h with
  | [], h => simp [HasPrefix, List.isPrefixOf] at h
  | [a], h => simp [HasPrefix, List.isPrefixOf] at h
  | a :: b :: tl, h =>
    simp only [HasPrefix, List.isPrefixOf, Bool.and_eq_true, beq_iff_eq, Bool.and_true] at h
    obtain ⟨ha, hb⟩ := h
    subst ha hb
    refine ⟨Split tl 58, ?_⟩
    rw [Split, if_neg (by decide), Split, if_pos rfl]
    rfl

theorem lineId_none (line : GoString)
    (h : ∀ ctrl path, Split line 58 = [str "1", ctrl, path] →
      ∀ seg ∈ Split path 47, seg ≠ str "docker" ∧ seg ≠ str "docker.service" ∧
        seg ≠ str "kubepods") :
    lineId line = [] := by
  unfold lineId
  by_cases hp : HasPrefix line (str "1:") = true
  · obtain ⟨rest, hr⟩ := Split_of_HasPrefix line hp
    simp only [hp, Bool.not_true, Bool.false_eq_true, if_false]
    by_cases hl : (Split line 58).length = 3
    · rw [hr] at hl
      match rest, hl with
      | [ctrl, path], _ =>
        rw [hr]
        simp only [List.length_cons, List.length_nil, ne_eq, not_true_eq_false, if_false]
        exact scanParts_none _ (h ctrl path hr)
    · simp [hl]
  · simp [hp]

theorem procStep_of_extractId_nil (pidmap : GoMap) (fs : HostProc) (st : GoMap × GoMap)
    (proc content : GoString) (hc : fs.cgroup proc = some content) (hid : extractId content = []) :
    procStep pidmap fs st proc = st := by
  unfold procStep
  cases Atoi proc with
  | none => rfl
  | some pid => simp [hc, hid]

theorem procStep_next_lookup (pidmap : GoMap) (fs : HostProc) (st : GoMap × GoMap)
    (proc content : GoString) (pid : Int) (hp : Atoi proc = some pid)
    (hc : fs.cgroup proc = some content) (hid : extractId content ≠ []) :
    (procStep pidmap fs st proc).1.lookup (uint32 pid) = some (extractId content) := by
  rw [procStep_eq]
  have : entryOf fs proc = some (uint32 pid, extractId content) := by
    simp [entryOf, hp, hc, hid]
  rw [this]
  exact AList.lookup_insert _

theorem foldl_entryStep_fst (p q : GoMap) (es : List (Uint32 × GoString)) (st st' : GoMap × GoMap)
    (h : st.1 = st'.1) :
    (es.foldl (entryStep p) st).1 = (es.foldl (entryStep q) st').1 := by
  induction es generalizing st st' with
  | nil => exact h
  | cons e es ih =>
    rw [List.foldl_cons, List.foldl_cons]
    apply ih
    simp [entryStep, h]

theorem entries_eq_nil_of_lookup (m : GoMap) (h : ∀ k, m.lookup k = none) : m.entries = [] := by
  cases hm : m.entries with
  | nil => rfl
  | cons e l =>
    obtain ⟨ek, ev⟩ := e
    have hmem : Sigma.mk ek ev ∈ m.entries := by rw [hm]; exact List.mem_cons_self _ _
    have := (AList.mem_lookup_iff (s := m) (a := ek) (b := ev)).2 hmem
    rw [Option.mem_def, h ek] at this
    cases this

theorem computeDiff_next_indep (o o' : RangeOrder) (pm pm' : PidMap) (fs : HostProc) :
    (computeDiff o pm fs).nextPidmap = (computeDiff o' pm' fs).nextPidmap := by
  rw [computeDiff_next, computeDiff_next]
  exact foldl_entryStep_fst _ _ _ _ _ rfl

/-- A tick that starts from the snapshot of the same listing has an empty diff. -/
theorem computeDiff_same (o o' : RangeOrder) (pm : PidMap) (fs : HostProc)
    (hd : DistinctPids fs) :
    (computeDiff o' ⟨(computeDiff o pm fs).nextPidmap⟩ fs).pidmapToAdd.entries = [] ∧
    (computeDiff o' ⟨(computeDiff o pm fs).nextPidmap⟩ fs).pidmapToRemove.entries = [] := by
  have hn := computeDiff_next_indep o' o ⟨(computeDiff o pm fs).nextPidmap⟩ pm fs
  constructor
  · apply entries_eq_nil_of_lookup
    intro k
    cases hl : (computeDiff o' ⟨(computeDiff o pm fs).nextPidmap⟩ fs).pidmapToAdd.lookup k with
    | none => rfl
    | some c =>
      have := (add_iff o' ⟨(computeDiff o pm fs).nextPidmap⟩ fs hd k c).1 hl
      rw [hn] at this
      exact absurd this.1 this.2
  · apply entries_eq_nil_of_lookup
    intro k
    cases hl : (computeDiff o' ⟨(computeDiff o pm fs).nextPidmap⟩ fs).pidmapToRemove.lookup k with
    | none => rfl
    | some c =>
      have := (remove_iff o' ⟨(computeDiff o pm fs).nextPidmap⟩ fs k c).1 hl
      rw [hn] at this
      rw [this.2] at this
      cases this.1

theorem Apply_nil {σ : Type} (exec : Command → σ → Bool × σ) (o : Orders) (add rem : GoMap)
    (w : σ) (ha : add.entries = []) (hr : rem.entries = []) :
    Apply exec o add rem w = (w, []) := by
  unfold Apply
  rw [if_pos]
  simp [ha, hr]

/-! ## The diff (C1, C2) -/

theorem ne_some_iff (x : Option GoString) (cid : GoString) :
    x ≠ some cid ↔ (x = none ∨ ∃ c, x = some c ∧ c ≠ cid) := by
  cases x with
  | none => simp
  | some c => simp

/-- C1, as stated, fails: with the previous snapshot `{1: "A"}` and a listing in which the names
`1` and `01` both denote pid 1 (in containers `B` and `A`, in that order), the add set has the
entry `(1, "B")` although the new snapshot is `{1: "A"}`; so the add set is not the set of
entries of the new snapshot that the previous snapshot lacks or has with a different cid. -/
theorem C1_counterexample :
    (computeDiff RangeOrder.asStored oneEntry twoNamesTable).pidmapToAdd.lookup 1
        = some (str "B") ∧
    (computeDiff RangeOrder.asStored oneEntry twoNamesTable).nextPidmap.lookup 1
        = some (str "A") ∧
    ¬ ((computeDiff RangeOrder.asStored oneEntry twoNamesTable).pidmapToAdd.lookup 1
          = some (str "B") ↔
        ((computeDiff RangeOrder.asStored oneEntry twoNamesTable).nextPidmap.lookup 1
            = some (str "B") ∧
          (oneEntry.pidmap.lookup 1 = none ∨
            ∃ c, oneEntry.pidmap.lookup 1 = some c ∧ c ≠ str "B"))) := by
  refine ⟨by decide, by decide, fun h => ?_⟩
  have h1 := (h.1 (by decide)).1
  revert h1
  decide

/-- C1 (amended): for every previous snapshot, every visiting order and every process listing in
which no two names that yield a container id denote the same pid, the add set that `Update`
computes is exactly the set of entries `(pid, cid)` of the new snapshot for which the previous
snapshot has no entry for `pid` or has a different cid. -/
theorem C1_add_set_exact (o : RangeOrder) (pm : PidMap) (fs : HostProc) (hd : DistinctPids fs)
    (pid : Uint32) (cid : GoString) :
    (computeDiff o pm fs).pidmapToAdd.lookup pid = some cid ↔
      ((computeDiff o pm fs).nextPidmap.lookup pid = some cid ∧
        (pm.pidmap.lookup pid = none ∨ ∃ c, pm.pidmap.lookup pid = some c ∧ c ≠ cid)) := by
  rw [add_iff o pm fs hd pid cid, ne_some_iff]

/-- C1, witness: the end-to-end scenario, at pid 200 and container `C`. -/
theorem C1_add_set_exact_witness :
    DistinctPids scenarioTable ∧
    ((computeDiff RangeOrder.reversed scenarioPrevious scenarioTable).pidmapToAdd.lookup 200
        = some (str "C") ↔
      ((computeDiff RangeOrder.reversed scenarioPrevious scenarioTable).nextPidmap.lookup 200
          = some (str "C") ∧
        (scenarioPrevious.pidmap.lookup 200 = none ∨
          ∃ c, scenarioPrevious.pidmap.lookup 200 = some c ∧ c ≠ str "C"))) :=
  ⟨by decide,
    C1_add_set_exact RangeOrder.reversed scenarioPrevious scenarioTable (by decide) 200 (str "C")⟩

/-- C2: for every previous snapshot, every visiting order and every process listing, the remove
set that `Update` computes is exactly the set of entries `(pid, cid)` of the previous snapshot
whose pid has no entry in the new snapshot; and a pid that is in the new snapshot with a cid
different from the previous one is in the add set (with the new cid) and not in the remove
set. -/
theorem C2_remove_set_exact (o : RangeOrder) (pm : PidMap) (fs : HostProc) :
    (∀ pid cid, (computeDiff o pm fs).pidmapToRemove.lookup pid = some cid ↔
      (pm.pidmap.lookup pid = some cid ∧ (computeDiff o pm fs).nextPidmap.lookup pid = none)) ∧
    (∀ pid cid c, (computeDiff o pm fs).nextPidmap.lookup pid = some cid →
      pm.pidmap.lookup pid = some c → c ≠ cid →
        ((computeDiff o pm fs).pidmapToAdd.lookup pid = some cid ∧
          (computeDiff o pm fs).pidmapToRemove.lookup pid = none)) := by
  refine ⟨fun pid cid => remove_iff o pm fs pid cid, ?_⟩
  intro pid cid c hn hp hne
  constructor
  · apply add_of_next o pm fs pid cid hn
    rw [hp]
    intro h
    exact hne (Option.some.inj h)
  · cases hr : (computeDiff o pm fs).pidmapToRemove.lookup pid with
    | none => rfl
    | some v =>
      have := ((remove_iff o pm fs pid v).1 hr).2
      rw [hn] at this
      cases this

/-! ## Convergence of the store (C3) -/

/-- C3, as stated, fails: the store holds exactly the previous snapshot `{1: "A"}`, the listing
has the names `1` and `01` for pid 1 (containers `B`, then `A`), every command succeeds; the
new snapshot is `{1: "A"}` but the store ends with the value `B` at the key of pid 1. -/
theorem C3_counterexample :
    Holds (storeOf oneEntry.pidmap) oneEntry.pidmap ∧
    (Update bpftool Orders.asStored oneEntry twoNamesTable
      (storeOf oneEntry.pidmap)).pm.pidmap.lookup 1 = some (str "A") ∧
    (Update bpftool Orders.asStored oneEntry twoNamesTable
      (storeOf oneEntry.pidmap)).world (PutUint32 1) = some (str "B") ∧
    ¬ Holds (Update bpftool Orders.asStored oneEntry twoNamesTable (storeOf oneEntry.pidmap)).world
      (Update bpftool Orders.asStored oneEntry twoNamesTable (storeOf oneEntry.pidmap)).pm.pidmap := by
  refine ⟨holds_storeOf _, by decide, by decide, fun h => ?_⟩
  obtain ⟨pid, hk, hl⟩ := (h (PutUint32 1) (str "B")).1 (by decide)
  have := PutUint32_injective _ _ hk
  subst this
  revert hl
  decide

/-- C3 (amended): for every previous snapshot P, every visiting order of the maps and every
process listing in which no two names that yield a container id denote the same pid, if the
store holds exactly the entries of P and every store command succeeds (the store model), then
after the tick the store holds exactly the entries of the new snapshot: a key has a value in
the store exactly when it is the little-endian key of a pid of the new snapshot, and the value
is that pid's container id. -/
theorem C3_convergence (o : Orders) (pm : PidMap) (fs : HostProc) (s : Store)
    (hs : Holds s pm.pidmap) (hd : DistinctPids fs) :
    Holds (Update bpftool o pm fs s).world (Update bpftool o pm fs s).pm.pidmap :=
  Update_bpftool_holds o pm fs s hs hd

/-- C3, witness: P = `{100: A, 200: B}` and the listing with 200 in `C` and 300 in `D`; the
store ends with keys 200 and 300 only, values `C` and `D`. -/
theorem C3_convergence_witness :
    Holds (storeOf scenarioPrevious.pidmap) scenarioPrevious.pidmap ∧
    DistinctPids scenarioTable ∧
    Holds (Update bpftool Orders.reversed scenarioPrevious scenarioTable
        (storeOf scenarioPrevious.pidmap)).world
      (Update bpftool Orders.reversed scenarioPrevious scenarioTable
        (storeOf scenarioPrevious.pidmap)).pm.pidmap ∧
    (Update bpftool Orders.reversed scenarioPrevious scenarioTable
        (storeOf scenarioPrevious.pidmap)).world (PutUint32 100) = none ∧
    (Update bpftool Orders.reversed scenarioPrevious scenarioTable
        (storeOf scenarioPrevious.pidmap)).world (PutUint32 200) = some (str "C") ∧
    (Update bpftool Orders.reversed scenarioPrevious scenarioTable
        (storeOf scenarioPrevious.pidmap)).world (PutUint32 300) = some (str "D") :=
  ⟨holds_storeOf _, by decide,
    C3_convergence Orders.reversed scenarioPrevious scenarioTable _ (holds_storeOf _) (by decide),
    by decide, by decide, by decide⟩

/-! ## Failures (C4, C5) -/

/-- C4, the code at the failing input: the previous snapshot is `{100: A, 200: B}`, the store
holds it, and the process table cannot be opened.  `Update` does not skip the tick: it runs a
delete command for both keys, which empties the store, and it replaces the retained snapshot
by the empty map. -/
theorem C4_unreadable_table_not_skipped :
    Readdirnames unreadableTable = ([], true) ∧
    (storeOf scenarioPrevious.pidmap) (PutUint32 100) = some (str "A") ∧
    (storeOf scenarioPrevious.pidmap) (PutUint32 200) = some (str "B") ∧
    (Update bpftool Orders.asStored scenarioPrevious unreadableTable
        (storeOf scenarioPrevious.pidmap)).cmds = [deleteCommand 100, deleteCommand 200] ∧
    (Update bpftool Orders.asStored scenarioPrevious unreadableTable
        (storeOf scenarioPrevious.pidmap)).world (PutUint32 100) = none ∧
    (Update bpftool Orders.asStored scenarioPrevious unreadableTable
        (storeOf scenarioPrevious.pidmap)).world (PutUint32 200) = none ∧
    (Update bpftool Orders.asStored scenarioPrevious unreadableTable
        (storeOf scenarioPrevious.pidmap)).pm.pidmap.entries = [] := by
  refine ⟨by decide, by decide, by decide, by decide, by decide, by decide, by decide⟩

/-- C5, as stated, fails: from an empty snapshot and an empty store, a tick over the table with
process 7 in container `c` runs one update command, which fails; the next tick over the same
table, in which every command would succeed, runs no command at all, and the store still has
no entry for pid 7 although the retained snapshot is `{7: "c"}`. -/
theorem C5_counterexample :
    (Update failing Orders.asStored ⟨∅⟩ singleTable (storeOf ∅)).cmds
      = [updateCommand 7 (str "c")] ∧
    (Update bpftool Orders.asStored
      (Update failing Orders.asStored ⟨∅⟩ singleTable (storeOf ∅)).pm singleTable
      (Update failing Orders.asStored ⟨∅⟩ singleTable (storeOf ∅)).world).cmds = [] ∧
    (Update bpftool Orders.asStored
      (Update failing Orders.asStored ⟨∅⟩ singleTable (storeOf ∅)).pm singleTable
      (Update failing Orders.asStored ⟨∅⟩ singleTable (storeOf ∅)).world).pm.pidmap.lookup 7
      = some (str "c") ∧
    (Update bpftool Orders.asStored
      (Update failing Orders.asStored ⟨∅⟩ singleTable (storeOf ∅)).pm singleTable
      (Update failing Orders.asStored ⟨∅⟩ singleTable (storeOf ∅)).world).world (PutUint32 7)
      = none := by
  refine ⟨by decide, by decide, by decide, by decide⟩

/-- C5 (amended): whatever the commands of a tick do (fail or succeed), `Update` replaces the
retained snapshot by the new snapshot; the next tick over the same process table (no two names
that yield a container id denoting the same pid) then runs no store command and leaves the
world and the retained snapshot as they are: operations that were not applied are not
reissued. -/
theorem C5_no_retry {σ : Type} (exec1 exec2 : Command → σ → Bool × σ) (o1 o2 : Orders)
    (pm : PidMap) (fs : HostProc) (w : σ) (hd : DistinctPids fs) :
    (Update exec1 o1 pm fs w).pm.pidmap = (computeDiff o1.previous pm fs).nextPidmap ∧
    (Update exec2 o2 (Update exec1 o1 pm fs w).pm fs (Update exec1 o1 pm fs w).world).cmds = [] ∧
    (Update exec2 o2 (Update exec1 o1 pm fs w).pm fs (Update exec1 o1 pm fs w).world).world
      = (Update exec1 o1 pm fs w).world ∧
    (Update exec2 o2 (Update exec1 o1 pm fs w).pm fs (Update exec1 o1 pm fs w).world).pm.pidmap
      = (Update exec1 o1 pm fs w).pm.pidmap := by
  obtain ⟨ha, hr⟩ := computeDiff_same o1.previous o2.previous pm fs hd
  have h := Apply_nil exec2 o2 _ _ (Update exec1 o1 pm fs w).world ha hr
  refine ⟨rfl, ?_, ?_, computeDiff_next_indep o2.previous o1.previous _ pm fs⟩
  · have h2 := congrArg Prod.snd h
    exact h2
  · have h1 := congrArg Prod.fst h
    exact h1

/-- C5, witness: the failed tick over the table with process 7, then a tick with the store
model. -/
theorem C5_no_retry_witness :
    DistinctPids singleTable ∧
    (Update bpftool Orders.asStored
      (Update failing Orders.asStored ⟨∅⟩ singleTable (storeOf ∅)).pm singleTable
      (Update failing Orders.asStored ⟨∅⟩ singleTable (storeOf ∅)).world).cmds = [] :=
  ⟨by decide,
    (C5_no_retry failing bpftool Orders.asStored Orders.asStored ⟨∅⟩ singleTable (storeOf ∅)
      (by decide)).2.1⟩

/-! ## Extraction (C6, C7, C8) -/

/-- C6, as stated, fails, at three texts.  (a) In
`1:a:/kubepods/q/p/c1` followed by `1:b:/docker/d1` the second line has hierarchy-id 1 and the
docker rule gives `d1`, but the extraction yields `c1`, from the earlier line.  (b) In
`1:a:/docker/` followed by `1:b:/docker/x` the first line matches the docker rule with an empty
following segment; the extraction goes on and yields `x`.  (c) In `1:name=systemd:/docker/a:b`
the path `/docker/a:b` has a colon, the line has four colon-separated fields and is skipped: the
extraction yields nothing. -/
theorem C6_counterexample :
    (Split (str "1:a:/kubepods/q/p/c1\n1:b:/docker/d1") 10
        = [str "1:a:/kubepods/q/p/c1", str "1:" ++ str "b" ++ 58 :: str "/docker/d1"] ∧
      DockerAt (Split (str "/docker/d1") 47) 1 ∧ NoMatchBefore (Split (str "/docker/d1") 47) 1 ∧
      (Split (str "/docker/d1") 47).getD 2 [] = str "d1" ∧
      extractId (str "1:a:/kubepods/q/p/c1\n1:b:/docker/d1") = str "c1") ∧
    (Split (str "1:a:/docker/\n1:b:/docker/x") 10
        = [str "1:" ++ str "a" ++ 58 :: str "/docker/", str "1:b:/docker/x"] ∧
      DockerAt (Split (str "/docker/") 47) 1 ∧ NoMatchBefore (Split (str "/docker/") 47) 1 ∧
      (Split (str "/docker/") 47).getD 2 [] = [] ∧
      extractId (str "1:a:/docker/\n1:b:/docker/x") = str "x") ∧
    (Split (str "1:name=systemd:/docker/a:b") 10
        = [str "1:" ++ str "name=systemd" ++ 58 :: str "/docker/a:b"] ∧
      DockerAt (Split (str "/docker/a:b") 47) 1 ∧
      NoMatchBefore (Split (str "/docker/a:b") 47) 1 ∧
      (Split (str "/docker/a:b") 47).getD 2 [] = str "a:b" ∧
      (Split (str "1:name=systemd:/docker/a:b") 58).length = 4 ∧
      extractId (str "1:name=systemd:/docker/a:b") = []) := by
  refine ⟨⟨by decide, by decide, by decide, by decide, by decide⟩,
    ⟨by decide, by decide, by decide, by decide, by decide⟩,
    ⟨by decide, by decide, by decide, by decide, by decide, by decide⟩⟩

/-- C6 (amended): for every cgroup text with a line `1:<controllers>:<path>` (exactly three
colon-separated fields) such that no earlier line of the text yields an identifier, and on
whose path, scanning the segments left to right, the first segment that matches a rule is
`docker` or `docker.service` with a following segment that is not empty: the extraction yields
that following segment, and `Update` enters it in the new snapshot as the container id of the
process. -/
theorem C6_docker_rule (content : GoString) (pre post : List GoString) (ctrl path : GoString)
    (i : Nat)
    (hlines : Split content 10 = pre ++ (str "1:" ++ ctrl ++ 58 :: path) :: post)
    (hpre : ∀ l ∈ pre, lineId l = [])
    (hctrl : (58 : Byte) ∉ ctrl) (hpath : (58 : Byte) ∉ path)
    (hat : DockerAt (Split path 47) i) (hfirst : NoMatchBefore (Split path 47) i)
    (hne : (Split path 47).getD (i + 1) [] ≠ []) :
    extractId content = (Split path 47).getD (i + 1) [] ∧
    ∀ (pidmap : GoMap) (fs : HostProc) (st : GoMap × GoMap) (proc : GoString) (pid : Int),
      Atoi proc = some pid → fs.cgroup proc = some content →
        (procStep pidmap fs st proc).1.lookup (uint32 pid)
          = some ((Split path 47).getD (i + 1) []) := by
  have hl : lineId (str "1:" ++ ctrl ++ 58 :: path) = (Split path 47).getD (i + 1) [] := by
    rw [lineId_hierarchy1 ctrl path hctrl hpath, scanParts_docker _ i hat hfirst]
  have he : extractId content = (Split path 47).getD (i + 1) [] := by
    unfold extractId
    rw [hlines, scanLines_append pre _ post hpre (by rw [hl]; exact hne), hl]
  refine ⟨he, ?_⟩
  intro pidmap fs st proc pid hp hc
  rw [← he]
  exact procStep_next_lookup pidmap fs st proc content pid hp hc (by rw [he]; exact hne)

set_option maxRecDepth 200000 in
/-- C6, witness: the line
`1:name=systemd:/docker/bf4e1697bc0f3fcd6aca1f359853ea2f0ae527ef2b14867f1a2ce3a44bf842e4`,
after a line of another hierarchy, yields
`bf4e1697bc0f3fcd6aca1f359853ea2f0ae527ef2b14867f1a2ce3a44bf842e4`. -/
theorem C6_docker_rule_witness :
    (Split (str "11:pids:/x\n1:name=systemd:/docker/bf4e1697bc0f3fcd6aca1f359853ea2f0ae527ef2b14867f1a2ce3a44bf842e4\n") 10
      = [str "11:pids:/x"] ++ (str "1:" ++ str "name=systemd" ++ 58 ::
          str "/docker/bf4e1697bc0f3fcd6aca1f359853ea2f0ae527ef2b14867f1a2ce3a44bf842e4")
          :: [[]]) ∧
    (∀ l ∈ [str "11:pids:/x"], lineId l = []) ∧
    ((58 : Byte) ∉ str "name=systemd") ∧
    ((58 : Byte) ∉
      str "/docker/bf4e1697bc0f3fcd6aca1f359853ea2f0ae527ef2b14867f1a2ce3a44bf842e4") ∧
    DockerAt (Split
      (str "/docker/bf4e1697bc0f3fcd6aca1f359853ea2f0ae527ef2b14867f1a2ce3a44bf842e4") 47) 1 ∧
    NoMatchBefore (Split
      (str "/docker/bf4e1697bc0f3fcd6aca1f359853ea2f0ae527ef2b14867f1a2ce3a44bf842e4") 47) 1 ∧
    (Split (str "/docker/bf4e1697bc0f3fcd6aca1f359853ea2f0ae527ef2b14867f1a2ce3a44bf842e4")
      47).getD (1 + 1) [] = str "bf4e1697bc0f3fcd6aca1f359853ea2f0ae527ef2b14867f1a2ce3a44bf842e4" ∧
    extractId (str "11:pids:/x\n1:name=systemd:/docker/bf4e1697bc0f3fcd6aca1f359853ea2f0ae527ef2b14867f1a2ce3a44bf842e4\n")
      = (Split (str "/docker/bf4e1697bc0f3fcd6aca1f359853ea2f0ae527ef2b14867f1a2ce3a44bf842e4")
          47).getD (1 + 1) [] :=
  ⟨by decide, by decide, by decide, by decide, by decide, by decide, by decide,
    (C6_docker_rule _ [str "11:pids:/x"] [[]] (str "name=systemd")
      (str "/docker/bf4e1697bc0f3fcd6aca1f359853ea2f0ae527ef2b14867f1a2ce3a44bf842e4") 1
      (by decide) (by decide) (by decide) (by decide) (by decide) (by decide) (by decide)).1⟩

/-- C7, as stated, fails, at three texts.  (a) In `1:a:/docker/d1` followed by
`1:b:/kubepods/q/p/c1` the second line has hierarchy-id 1 and the kubepods rule gives `c1`, but
the extraction yields `d1`, from the earlier line.  (b) In `1:a:/kubepods/q/p/` followed by
`1:b:/docker/x` the first line matches the kubepods rule with an empty third further segment;
the extraction goes on and yields `x`.  (c) In `1:name=systemd:/kubepods/q/p/a:b` the path has
a colon, the line has four colon-separated fields and is skipped: the extraction yields
nothing. -/
theorem C7_counterexample :
    (Split (str "1:a:/docker/d1\n1:b:/kubepods/q/p/c1") 10
        = [str "1:a:/docker/d1", str "1:" ++ str "b" ++ 58 :: str "/kubepods/q/p/c1"] ∧
      KubepodsAt (Split (str "/kubepods/q/p/c1") 47) 1 ∧
      NoMatchBefore (Split (str "/kubepods/q/p/c1") 47) 1 ∧
      (Split (str "/kubepods/q/p/c1") 47).getD 4 [] = str "c1" ∧
      extractId (str "1:a:/docker/d1\n1:b:/kubepods/q/p/c1") = str "d1") ∧
    (Split (str "1:a:/kubepods/q/p/\n1:b:/docker/x") 10
        = [str "1:" ++ str "a" ++ 58 :: str "/kubepods/q/p/", str "1:b:/docker/x"] ∧
      KubepodsAt (Split (str "/kubepods/q/p/") 47) 1 ∧
      NoMatchBefore (Split (str "/kubepods/q/p/") 47) 1 ∧
      (Split (str "/kubepods/q/p/") 47).getD 4 [] = [] ∧
      extractId (str "1:a:/kubepods/q/p/\n1:b:/docker/x") = str "x") ∧
    (Split (str "1:name=systemd:/kubepods/q/p/a:b") 10
        = [str "1:" ++ str "name=systemd" ++ 58 :: str "/kubepods/q/p/a:b"] ∧
      KubepodsAt (Split (str "/kubepods/q/p/a:b") 47) 1 ∧
      NoMatchBefore (Split (str "/kubepods/q/p/a:b") 47) 1 ∧
      (Split (str "/kubepods/q/p/a:b") 47).getD 4 [] = str "a:b" ∧
      (Split (str "1:name=systemd:/kubepods/q/p/a:b") 58).length = 4 ∧
      extractId (str "1:name=systemd:/kubepods/q/p/a:b") = []) := by
  refine ⟨⟨by decide, by decide, by decide, by decide, by decide⟩,
    ⟨by decide, by decide, by decide, by decide, by decide⟩,
    ⟨by decide, by decide, by decide, by decide, by decide, by decide⟩⟩

/-- C7 (amended): for every cgroup text with a line `1:<controllers>:<path>` (exactly three
colon-separated fields) such that no earlier line of the text yields an identifier, and on
whose path, scanning the segments left to right, the first segment that matches a rule is
`kubepods` with at least three further segments, the third of which is not empty: the
extraction yields the segment three positions after `kubepods`, and `Update` enters it in the
new snapshot as the container id of the process. -/
theorem C7_kubepods_rule (content : GoString) (pre post : List GoString) (ctrl path : GoString)
    (i : Nat)
    (hlines : Split content 10 = pre ++ (str "1:" ++ ctrl ++ 58 :: path) :: post)
    (hpre : ∀ l ∈ pre, lineId l = [])
    (hctrl : (58 : Byte) ∉ ctrl) (hpath : (58 : Byte) ∉ path)
    (hat : KubepodsAt (Split path 47) i) (hfirst : NoMatchBefore (Split path 47) i)
    (hne : (Split path 47).getD (i + 3) [] ≠ []) :
    extractId content = (Split path 47).getD (i + 3) [] ∧
    ∀ (pidmap : GoMap) (fs : HostProc) (st : GoMap × GoMap) (proc : GoString) (pid : Int),
      Atoi proc = some pid → fs.cgroup proc = some content →
        (procStep pidmap fs st proc).1.lookup (uint32 pid)
          = some ((Split path 47).getD (i + 3) []) := by
  have hl : lineId (str "1:" ++ ctrl ++ 58 :: path) = (Split path 47).getD (i + 3) [] := by
    rw [lineId_hierarchy1 ctrl path hctrl hpath, scanParts_kubepods _ i hat hfirst]
  have he : extractId content = (Split path 47).getD (i + 3) [] := by
    unfold extractId
    rw [hlines, scanLines_append pre _ post hpre (by rw [hl]; exact hne), hl]
  refine ⟨he, ?_⟩
  intro pidmap fs st proc pid hp hc
  rw [← he]
  exact procStep_next_lookup pidmap fs st proc content pid hp hc (by rw [he]; exact hne)

set_option maxRecDepth 200000 in
/-- C7, witness: the line
`1:name=systemd:/kubepods/besteffort/podb44d9344-3dd9-11e9-8cee-0265528b4d7c/3c92...3194`,
after a line of another hierarchy, yields
`3c923625e1cbe7d10a4c971636469d5458e029f7f5e63da95ccdcfb7212c3194`. -/
theorem C7_kubepods_rule_witness :
    (Split (str "11:pids:/x\n1:name=systemd:/kubepods/besteffort/podb44d9344-3dd9-11e9-8cee-0265528b4d7c/3c923625e1cbe7d10a4c971636469d5458e029f7f5e63da95ccdcfb7212c3194\n") 10
      = [str "11:pids:/x"] ++ (str "1:" ++ str "name=systemd" ++ 58 ::
          str "/kubepods/besteffort/podb44d9344-3dd9-11e9-8cee-0265528b4d7c/3c923625e1cbe7d10a4c971636469d5458e029f7f5e63da95ccdcfb7212c3194")
          :: [[]]) ∧
    (∀ l ∈ [str "11:pids:/x"], lineId l = []) ∧
    ((58 : Byte) ∉ str "name=systemd") ∧
    ((58 : Byte) ∉
      str "/kubepods/besteffort/podb44d9344-3dd9-11e9-8cee-0265528b4d7c/3c923625e1cbe7d10a4c971636469d5458e029f7f5e63da95ccdcfb7212c3194") ∧
    KubepodsAt (Split
      (str "/kubepods/besteffort/podb44d9344-3dd9-11e9-8cee-0265528b4d7c/3c923625e1cbe7d10a4c971636469d5458e029f7f5e63da95ccdcfb7212c3194") 47) 1 ∧
    NoMatchBefore (Split
      (str "/kubepods/besteffort/podb44d9344-3dd9-11e9-8cee-0265528b4d7c/3c923625e1cbe7d10a4c971636469d5458e029f7f5e63da95ccdcfb7212c3194") 47) 1 ∧
    (Split (str "/kubepods/besteffort/podb44d9344-3dd9-11e9-8cee-0265528b4d7c/3c923625e1cbe7d10a4c971636469d5458e029f7f5e63da95ccdcfb7212c3194")
      47).getD (1 + 3) [] = str "3c923625e1cbe7d10a4c971636469d5458e029f7f5e63da95ccdcfb7212c3194" ∧
    extractId (str "11:pids:/x\n1:name=systemd:/kubepods/besteffort/podb44d9344-3dd9-11e9-8cee-0265528b4d7c/3c923625e1cbe7d10a4c971636469d5458e029f7f5e63da95ccdcfb7212c3194\n")
      = (Split (str "/kubepods/besteffort/podb44d9344-3dd9-11e9-8cee-0265528b4d7c/3c923625e1cbe7d10a4c971636469d5458e029f7f5e63da95ccdcfb7212c3194")
          47).getD (1 + 3) [] :=
  ⟨by decide, by decide, by decide, by decide, by decide, by decide, by decide,
    (C7_kubepods_rule _ [str "11:pids:/x"] [[]] (str "name=systemd")
      (str "/kubepods/besteffort/podb44d9344-3dd9-11e9-8cee-0265528b4d7c/3c923625e1cbe7d10a4c971636469d5458e029f7f5e63da95ccdcfb7212c3194") 1
      (by decide) (by decide) (by decide) (by decide) (by decide) (by decide) (by decide)).1⟩

/-- C8: for every cgroup text that has no line starting with `1:`, or in which no path segment
of any line with the three fields `1`, controllers, path equals `docker`, `docker.service` or
`kubepods`, the extraction yields no identifier (`id` stays empty), and the iteration of
`Update` for a process with that text leaves `nextPidmap` and `pidmapToAdd` as they were. -/
theorem C8_no_container (content : GoString)
    (h : (∀ line ∈ Split content 10, HasPrefix line (str "1:") = false) ∨
      (∀ line ∈ Split content 10, ∀ ctrl path, Split line 58 = [str "1", ctrl, path] →
        ∀ seg ∈ Split path 47,
          seg ≠ str "docker" ∧ seg ≠ str "docker.service" ∧ seg ≠ str "kubepods")) :
    extractId content = [] ∧
    ∀ (pidmap : GoMap) (fs : HostProc) (st : GoMap × GoMap) (proc : GoString),
      fs.cgroup proc = some content → procStep pidmap fs st proc = st := by
  have he : extractId content = [] := by
    unfold extractId
    apply scanLines_none
    intro l hl
    rcases h with h | h
    · unfold lineId
      simp [h l hl]
    · exact lineId_none l (h l hl)
  exact ⟨he, fun pidmap fs st proc hc => procStep_of_extractId_nil pidmap fs st proc content hc he⟩

/-- C8, witness: a text whose only hierarchy-1 line has the path `/user.slice/docker-1`, next to
a line of hierarchy 11 with a docker path. -/
theorem C8_no_container_witness :
    ((∀ line ∈ Split (str "11:pids:/docker/abc\n1:name=systemd:/user.slice/docker-1\n") 10,
        HasPrefix line (str "1:") = false) ∨
      (∀ line ∈ Split (str "11:pids:/docker/abc\n1:name=systemd:/user.slice/docker-1\n") 10,
        ∀ ctrl path, Split line 58 = [str "1", ctrl, path] →
          ∀ seg ∈ Split path 47,
            seg ≠ str "docker" ∧ seg ≠ str "docker.service" ∧ seg ≠ str "kubepods")) ∧
    extractId (str "11:pids:/docker/abc\n1:name=systemd:/user.slice/docker-1\n") = [] := by
  have hyp : ∀ line ∈ Split (str "11:pids:/docker/abc\n1:name=systemd:/user.slice/docker-1\n") 10,
      ∀ ctrl path, Split line 58 = [str "1", ctrl, path] →
        ∀ seg ∈ Split path 47,
          seg ≠ str "docker" ∧ seg ≠ str "docker.service" ∧ seg ≠ str "kubepods" := by
    have hs : Split (str "11:pids:/docker/abc\n1:name=systemd:/user.slice/docker-1\n") 10
        = [str "11:pids:/docker/abc", str "1:name=systemd:/user.slice/docker-1", []] := by
      decide
    intro line hl ctrl path hf seg hseg
    rw [hs] at hl
    simp only [List.mem_cons, List.mem_singleton, List.not_mem_nil, or_false] at hl
    rcases hl with rfl | rfl | rfl
    · have h1 : Split (str "11:pids:/docker/abc") 58
          = [str "11", str "pids", str "/docker/abc"] := by decide
      rw [h1] at hf
      have h2 : str "11" = str "1" := (List.cons.inj hf).1
      exact absurd h2 (by decide)
    · have h1 : Split (str "1:name=systemd:/user.slice/docker-1") 58
          = [str "1", str "name=systemd", str "/user.slice/docker-1"] := by decide
      rw [h1] at hf
      have h2 : str "/user.slice/docker-1" = path :=
        (List.cons.inj (List.cons.inj (List.cons.inj hf).2).2).1
      subst h2
      have h3 : Split (str "/user.slice/docker-1") 47 = [[], str "user.slice", str "docker-1"] := by
        decide
      rw [h3] at hseg
      simp only [List.mem_cons, List.mem_singleton, List.not_mem_nil, or_false] at hseg
      rcases hseg with rfl | rfl | rfl <;> decide
    · have h1 : Split ([] : GoString) 58 = [[]] := by decide
      rw [h1] at hf
      exact absurd (congrArg List.length hf) (by simp)
  exact ⟨Or.inr hyp, (C8_no_container _ (Or.inr hyp)).1⟩

/-! ## Encodings (C9, C10) -/

/-- C9: for every 32-bit unsigned `v`, `uint32ToHex v` is a list of exactly four tokens, each
made of two lowercase hexadecimal digits, where token `i` has the value `(v / 256^i) mod 256`;
decoding the four tokens as little-endian bytes gives back `v`, and distinct values have
distinct keys. -/
theorem C9_key_encoding (v : Uint32) :
    (uint32ToHex v).length = 4 ∧
    hexByteValue ((uint32ToHex v).getD 0 []) = some (v.val / 256 ^ 0 % 256) ∧
    hexByteValue ((uint32ToHex v).getD 1 []) = some (v.val / 256 ^ 1 % 256) ∧
    hexByteValue ((uint32ToHex v).getD 2 []) = some (v.val / 256 ^ 2 % 256) ∧
    hexByteValue ((uint32ToHex v).getD 3 []) = some (v.val / 256 ^ 3 % 256) ∧
    (parseHexBytes (uint32ToHex v)).map fromLittleEndian = some v.val ∧
    ∀ w : Uint32, uint32ToHex w = uint32ToHex v → w = v := by
  have hdec : parseHexBytes (uint32ToHex v) = some (PutUint32 v) := by
    rw [uint32ToHex_eq]
    exact parseHexBytes_map_sprintf02x _
  refine ⟨?_, ?_, ?_, ?_, ?_, ?_, ?_⟩
  · rw [uint32ToHex_eq]
    rfl
  · rw [uint32ToHex_eq, ← PutUint32_val v 0 (by omega)]
    exact hexByteValue_sprintf02x _
  · rw [uint32ToHex_eq, ← PutUint32_val v 1 (by omega)]
    exact hexByteValue_sprintf02x _
  · rw [uint32ToHex_eq, ← PutUint32_val v 2 (by omega)]
    exact hexByteValue_sprintf02x _
  · rw [uint32ToHex_eq, ← PutUint32_val v 3 (by omega)]
    exact hexByteValue_sprintf02x _
  · rw [hdec, Option.map_some', fromLittleEndian_PutUint32]
  · intro w hw
    have hdecw : parseHexBytes (uint32ToHex w) = some (PutUint32 w) := by
      rw [uint32ToHex_eq]
      exact parseHexBytes_map_sprintf02x _
    rw [hw, hdec] at hdecw
    exact (PutUint32_injective _ _ (Option.some.inj hdecw)).symm

/-- C10: for every string `s`, `stringToHex s` has exactly one token per byte of `s`, in order,
each token being two lowercase hexadecimal digits with the value of that byte; decoding the
tokens as bytes gives back `s`. -/
theorem C10_value_encoding (s : GoString) :
    (stringToHex s).length = s.length ∧
    (∀ (i : Nat) (b : Byte), s.get? i = some b →
      (stringToHex s).get? i = some (sprintf02x b) ∧
      hexByteValue (sprintf02x b) = some b.val) ∧
    parseHexBytes (stringToHex s) = some s := by
  rw [stringToHex_eq]
  refine ⟨List.length_map _ _, ?_, parseHexBytes_map_sprintf02x s⟩
  intro i b hb
  refine ⟨?_, hexByteValue_sprintf02x b⟩
  simp only [List.get?_eq_getElem?] at hb ⊢
  rw [List.getElem?_map, hb]
  rfl

/-! ## Runs of commands: lemmas -/

theorem deleteLoop_eq_run {σ : Type} (exec : Command → σ → Bool × σ) (l : List Entry) (w : σ) :
    deleteLoop exec l w = runUntilFailure exec (l.map (fun e => deleteCommand e.1)) w := by
  induction l generalizing w with
  | nil => rfl
  | cons e l ih =>
    simp only [deleteLoop, List.map_cons, runUntilFailure, ih]

theorem updateLoop_eq_run {σ : Type} (exec : Command → σ → Bool × σ) (l : List Entry) (w : σ) :
    updateLoop exec l w = runUntilFailure exec (l.map (fun e => updateCommand e.1 e.2)) w := by
  induction l generalizing w with
  | nil => rfl
  | cons e l ih =>
    simp only [updateLoop, List.map_cons, runUntilFailure, ih]

theorem runUntilFailure_append {σ : Type} (exec : Command → σ → Bool × σ) (a b : List Command)
    (w : σ) :
    runUntilFailure exec (a ++ b) w =
      if (runUntilFailure exec a w).failed then runUntilFailure exec a w
      else ⟨(runUntilFailure exec b (runUntilFailure exec a w).world).failed,
            (runUntilFailure exec b (runUntilFailure exec a w).world).world,
            (runUntilFailure exec a w).cmds
              ++ (runUntilFailure exec b (runUntilFailure exec a w).world).cmds⟩ := by
  induction a generalizing w with
  | nil => simp [runUntilFailure]
  | cons c cs ih =>
    simp only [List.cons_append, runUntilFailure]
    by_cases hc : (exec c w).1 = true
    · simp [hc]
    · simp only [hc, if_false, Bool.false_eq_true]
      by_cases hf : (runUntilFailure exec cs (exec c w).2).failed = true
      · simp [hf, ih]
      · simp [hf, ih]

/-- `Apply` runs the delete commands and then the update commands, up to the first failure. -/
theorem Apply_eq_run {σ : Type} (exec : Command → σ → Bool × σ) (o : Orders) (add rem : GoMap)
    (w : σ) :
    Apply exec o add rem w =
      ((runUntilFailure exec (deleteCommands o rem ++ updateCommands o add) w).world,
        (runUntilFailure exec (deleteCommands o rem ++ updateCommands o add) w).cmds) := by
  unfold Apply deleteCommands updateCommands
  split
  · rename_i h
    rw [order_eq_nil _ _ h.1, order_eq_nil _ _ h.2]
    rfl
  · simp only [runUntilFailure_append, deleteLoop_eq_run, updateLoop_eq_run]
    by_cases hf : (runUntilFailure exec
        (List.map (fun e => deleteCommand e.fst) (o.toRemove.order rem)) w).failed = true
    · simp [hf]
    · simp [hf]

theorem runUntilFailure_initial {σ : Type} (exec : Command → σ → Bool × σ) (cs : List Command)
    (w : σ) : (runUntilFailure exec cs w).cmds <+: cs := by
  induction cs generalizing w with
  | nil => exact List.prefix_refl _
  | cons c cs ih =>
    simp only [runUntilFailure]
    by_cases hc : (exec c w).1 = true
    · simp [hc]
    · simp only [hc, if_false, Bool.false_eq_true]
      exact (List.prefix_cons_inj c).2 (ih _)

theorem runUntilFailure_world {σ : Type} (exec : Command → σ → Bool × σ) (cs : List Command)
    (w : σ) : (runUntilFailure exec cs w).world = runAll exec (runUntilFailure exec cs w).cmds w := by
  induction cs generalizing w with
  | nil => rfl
  | cons c cs ih =>
    simp only [runUntilFailure]
    by_cases hc : (exec c w).1 = true
    · simp [hc, runAll]
    · simp only [hc, if_false, Bool.false_eq_true, runAll]
      exact ih _

/-- Fail-fast: a command of the run that fails is the last command of the run, and the run is
marked as failed. -/
theorem runUntilFailure_failure_last {σ : Type} (exec : Command → σ → Bool × σ)
    (cs : List Command) (w : σ) (pre : List Command) (c : Command) (post : List Command)
    (h : (runUntilFailure exec cs w).cmds = pre ++ c :: post)
    (hfail : (exec c (runAll exec pre w)).1 = true) :
    post = [] ∧ (runUntilFailure exec cs w).failed = true := by
  induction cs generalizing w pre with
  | nil => simp [runUntilFailure] at h
  | cons c0 cs ih =>
    simp only [runUntilFailure] at h ⊢
    by_cases hc : (exec c0 w).1 = true
    · simp only [hc, if_true] at h ⊢
      cases pre with
      | nil =>
        simp only [List.nil_append, List.cons.injEq] at h
        exact ⟨h.2.symm, trivial⟩
      | cons p ps =>
        simp only [List.cons_append, List.cons.injEq] at h
        exact absurd h.2 (by simp)
    · simp only [hc, if_false, Bool.false_eq_true] at h ⊢
      cases pre with
      | nil =>
        simp only [List.nil_append, List.cons.injEq] at h
        rw [← h.1] at hfail
        exact absurd hfail hc
      | cons p ps =>
        simp only [List.cons_append, List.cons.injEq] at h
        rw [← h.1] at hfail
        exact ih (exec c0 w).2 ps h.2 hfail

/-- A run in which no command fails runs all the commands. -/
theorem runUntilFailure_all {σ : Type} (exec : Command → σ → Bool × σ) (cs : List Command)
    (w : σ)
    (h : ∀ pre c post, (runUntilFailure exec cs w).cmds = pre ++ c :: post →
      (exec c (runAll exec pre w)).1 = false) :
    (runUntilFailure exec cs w).cmds = cs := by
  induction cs generalizing w with
  | nil => rfl
  | cons c0 cs ih =>
    simp only [runUntilFailure] at h ⊢
    by_cases hc : (exec c0 w).1 = true
    · simp only [hc, if_true] at h
      have := h [] c0 [] rfl
      simp only [runAll] at this
      rw [hc] at this
      cases this
    · simp only [hc, if_false, Bool.false_eq_true] at h ⊢
      congr 1
      apply ih
      intro pre c post hp
      have := h (c0 :: pre) c post (by rw [hp]; rfl)
      simpa [runAll] using this

/-! ## The commands of `Apply`: lemmas -/

theorem uint32ToHex_injective (v w : Uint32) (h : uint32ToHex v = uint32ToHex w) : v = w := by
  have hv : parseHexBytes (uint32ToHex v) = some (PutUint32 v) := by
    rw [uint32ToHex_eq]
    exact parseHexBytes_map_sprintf02x _
  have hw : parseHexBytes (uint32ToHex w) = some (PutUint32 w) := by
    rw [uint32ToHex_eq]
    exact parseHexBytes_map_sprintf02x _
  rw [h, hw] at hv
  exact (PutUint32_injective _ _ (Option.some.inj hv)).symm

theorem uint32ToHex_length (v : Uint32) : (uint32ToHex v).length = 4 := by
  rw [uint32ToHex_eq]
  rfl

theorem stringToHex_injective (s t : GoString) (h : stringToHex s = stringToHex t) : s = t := by
  have hs := parseHexBytes_map_sprintf02x s
  have ht := parseHexBytes_map_sprintf02x t
  rw [← stringToHex_eq] at hs ht
  rw [h, ht] at hs
  exact (Option.some.inj hs).symm

theorem deleteCommand_injective : Function.Injective deleteCommand := by
  intro k k' h
  have h1 : (deleteCommand k).args = (deleteCommand k').args := congrArg Command.args h
  simp only [deleteCommand] at h1
  exact uint32ToHex_injective _ _ (List.append_cancel_left h1)

theorem updateCommand_injective (k k' : Uint32) (v v' : GoString)
    (h : updateCommand k v = updateCommand k' v') : k = k' ∧ v = v' := by
  have h1 : (updateCommand k v).args = (updateCommand k' v').args := congrArg Command.args h
  simp only [updateCommand, List.append_assoc] at h1
  have h2 := List.append_cancel_left h1
  have h3 := List.append_inj h2 (by rw [uint32ToHex_length, uint32ToHex_length])
  exact ⟨uint32ToHex_injective _ _ h3.1, stringToHex_injective _ _ (List.append_cancel_left h3.2)⟩

theorem deleteCommand_ne_updateCommand (k k' : Uint32) (v : GoString) :
    deleteCommand k ≠ updateCommand k' v := by
  intro h
  have h1 : (deleteCommand k).args.get? 1 = (updateCommand k' v).args.get? 1 := by rw [h]
  simp only [deleteCommand, updateCommand, List.append_assoc, List.cons_append,
    List.get?_cons_succ, List.get?_cons_zero, Option.some.injEq] at h1
  revert h1
  decide

theorem updateCommand_not_mem_deleteCommands (o : Orders) (rem : GoMap) (k : Uint32)
    (v : GoString) : updateCommand k v ∉ deleteCommands o rem := by
  intro h
  obtain ⟨e, _, he⟩ := List.mem_map.1 h
  exact deleteCommand_ne_updateCommand _ _ _ he

theorem deleteCommand_not_mem_updateCommands (o : Orders) (add : GoMap) (k : Uint32) :
    deleteCommand k ∉ updateCommands o add := by
  intro h
  obtain ⟨e, _, he⟩ := List.mem_map.1 h
  exact deleteCommand_ne_updateCommand _ _ _ he.symm

theorem Apply_cmds_initial {σ : Type} (exec : Command → σ → Bool × σ) (o : Orders)
    (add rem : GoMap) (w : σ) :
    (Apply exec o add rem w).2 <+: deleteCommands o rem ++ updateCommands o add := by
  rw [Apply_eq_run]
  exact runUntilFailure_initial _ _ _

/-- In the commands of `Apply`, an update command stands at or after position
`len(deletes)`, a delete command before it. -/
theorem Apply_cmds_positions {σ : Type} (exec : Command → σ → Bool × σ) (o : Orders)
    (add rem : GoMap) (w : σ) (i : Nat) (c : Command)
    (h : (Apply exec o add rem w).2.get? i = some c) :
    (∀ k v, c = updateCommand k v → (deleteCommands o rem).length ≤ i) ∧
    (∀ k, c = deleteCommand k → i < (deleteCommands o rem).length) := by
  obtain ⟨t, ht⟩ := Apply_cmds_initial exec o add rem w
  rw [List.get?_eq_getElem?] at h
  have hi : i < (Apply exec o add rem w).2.length := by
    by_contra hn
    rw [List.getElem?_eq_none (by omega)] at h
    cases h
  have hfull : (deleteCommands o rem ++ updateCommands o add)[i]? = some c := by
    rw [← ht, List.getElem?_append_left hi]
    exact h
  constructor
  · intro k v hc
    by_contra hn
    have hlt : i < (deleteCommands o rem).length := by omega
    rw [List.getElem?_append_left hlt] at hfull
    have hmem := List.getElem?_mem hfull
    rw [hc] at hmem
    exact updateCommand_not_mem_deleteCommands o rem k v hmem
  · intro k hc
    by_contra hn
    have hge : (deleteCommands o rem).length ≤ i := by omega
    rw [List.getElem?_append_right hge] at hfull
    have hmem := List.getElem?_mem hfull
    rw [hc] at hmem
    exact deleteCommand_not_mem_updateCommands o add k hmem

/-- When a delete command of `Apply` fails, the commands of the call are delete commands. -/
theorem Apply_failed_delete {σ : Type} (exec : Command → σ → Bool × σ) (o : Orders)
    (add rem : GoMap) (w : σ) (pre post : List Command) (k : Uint32)
    (h : (Apply exec o add rem w).2 = pre ++ deleteCommand k :: post)
    (hfail : (exec (deleteCommand k) (runAll exec pre w)).1 = true) :
    ∀ k' v, updateCommand k' v ∉ (Apply exec o add rem w).2 := by
  have hpost : post = [] := by
    have h' := h
    rw [Apply_eq_run] at h'
    exact (runUntilFailure_failure_last exec _ w pre _ post h' hfail).1
  subst hpost
  have hpos := (Apply_cmds_positions exec o add rem w pre.length (deleteCommand k) (by
    rw [h]; simp)).2 k rfl
  have hlen : (Apply exec o add rem w).2.length ≤ (deleteCommands o rem).length := by
    rw [h]
    simp only [List.length_append, List.length_cons, List.length_nil]
    omega
  have hpre : (Apply exec o add rem w).2 <+: deleteCommands o rem :=
    List.prefix_of_prefix_length_le (Apply_cmds_initial exec o add rem w)
      (List.prefix_append _ _) hlen
  intro k' v hmem
  exact updateCommand_not_mem_deleteCommands o rem k' v (hpre.subset hmem)

theorem count_deleteCommands (o : Orders) (rem : GoMap) (k : Uint32) :
    (deleteCommands o rem).count (deleteCommand k) = if (rem.lookup k).isSome then 1 else 0 := by
  have hmap : deleteCommands o rem = ((o.toRemove.order rem).map Sigma.fst).map deleteCommand := by
    simp [deleteCommands, List.map_map, Function.comp_def]
  rw [hmap, List.count_map_of_injective _ _ deleteCommand_injective]
  have hnd := order_nodup o.toRemove rem
  have hmem : k ∈ (o.toRemove.order rem).map Sigma.fst ↔ (rem.lookup k).isSome = true := by
    rw [AList.lookup_isSome, AList.mem_keys, AList.keys]
    exact ((o.toRemove.perm rem).map Sigma.fst).mem_iff
  by_cases hk : (rem.lookup k).isSome = true
  · rw [if_pos hk]
    exact List.count_eq_one_of_mem hnd (hmem.2 hk)
  · rw [if_neg hk]
    exact List.count_eq_zero_of_not_mem (fun hm => hk (hmem.1 hm))

theorem count_updateCommands (o : Orders) (add : GoMap) (k : Uint32) (v : GoString) :
    (updateCommands o add).count (updateCommand k v)
      = if add.lookup k = some v then 1 else 0 := by
  have hinj : Function.Injective (fun e : Entry => updateCommand e.1 e.2) := by
    rintro ⟨a, b⟩ ⟨a', b'⟩ h
    obtain ⟨h1, h2⟩ := updateCommand_injective a a' b b' h
    subst h1 h2
    rfl
  have hc : (updateCommands o add).count (updateCommand k v)
      = (o.toAdd.order add).count (Sigma.mk k v) := by
    unfold updateCommands
    exact List.count_map_of_injective _ (fun e : Entry => updateCommand e.1 e.2) hinj ⟨k, v⟩
  rw [hc]
  have hnd : (o.toAdd.order add).Nodup := by
    have := order_nodup o.toAdd add
    exact List.Nodup.of_map _ this
  by_cases hk : add.lookup k = some v
  · rw [if_pos hk]
    exact List.count_eq_one_of_mem hnd ((mem_order_iff _ _ _ _).2 hk)
  · rw [if_neg hk]
    exact List.count_eq_zero_of_not_mem (fun hm => hk ((mem_order_iff _ _ _ _).1 hm))

/-! ## The diff: further lemmas -/

theorem foldl_entryStep_isSome_mono (pidmap : GoMap) (k : Uint32)
    (es : List (Uint32 × GoString)) (st : GoMap × GoMap) (h : (st.1.lookup k).isSome = true) :
    ((es.foldl (entryStep pidmap) st).1.lookup k).isSome = true := by
  induction es generalizing st with
  | nil => exact h
  | cons e es ih =>
    rw [List.foldl_cons]
    apply ih
    unfold entryStep
    by_cases hk : k = e.1
    · subst hk
      simp [AList.lookup_insert]
    · rw [AList.lookup_insert_ne hk]
      exact h

/-- Every pid of the listing is a key of `nextPidmap`. -/
theorem foldl_entryStep_key (pidmap : GoMap) (k : Uint32) (c : GoString)
    (es : List (Uint32 × GoString)) (st : GoMap × GoMap) (h : (k, c) ∈ es) :
    ((es.foldl (entryStep pidmap) st).1.lookup k).isSome = true := by
  induction es generalizing st with
  | nil => cases h
  | cons e es ih =>
    rw [List.foldl_cons]
    rcases List.mem_cons.1 h with h | h
    · subst h
      apply foldl_entryStep_isSome_mono
      simp [entryStep, AList.lookup_insert]
    · exact ih _ h

theorem listed_of_add (o : RangeOrder) (pm : PidMap) (fs : HostProc) (k : Uint32) (c : GoString)
    (h : (computeDiff o pm fs).pidmapToAdd.lookup k = some c) : (k, c) ∈ listed fs := by
  rw [computeDiff_add] at h
  rcases (foldl_entryStep_sound pm.pidmap k c (listed fs) (∅, ∅)).2 h with h | h
  · exact h.1
  · simp [AList.lookup_empty] at h

theorem listed_of_next (o : RangeOrder) (pm : PidMap) (fs : HostProc) (k : Uint32) (c : GoString)
    (h : (computeDiff o pm fs).nextPidmap.lookup k = some c) : (k, c) ∈ listed fs := by
  rw [computeDiff_next] at h
  rcases (foldl_entryStep_sound pm.pidmap k c (listed fs) (∅, ∅)).1 h with h | h
  · exact h
  · simp [AList.lookup_empty] at h

theorem next_isSome_of_listed (o : RangeOrder) (pm : PidMap) (fs : HostProc) (k : Uint32)
    (c : GoString) (h : (k, c) ∈ listed fs) :
    ((computeDiff o pm fs).nextPidmap.lookup k).isSome = true := by
  rw [computeDiff_next]
  exact foldl_entryStep_key pm.pidmap k c (listed fs) _ h

/-- With distinct pids, the new snapshot is exactly the set of listed entries. -/
theorem next_iff_listed (o : RangeOrder) (pm : PidMap) (fs : HostProc) (hd : DistinctPids fs)
    (k : Uint32) (c : GoString) :
    (computeDiff o pm fs).nextPidmap.lookup k = some c ↔ (k, c) ∈ listed fs := by
  constructor
  · exact listed_of_next o pm fs k c
  · intro h
    rw [computeDiff_next]
    exact foldl_entryStep_next_of_mem pm.pidmap k c (listed fs) _ hd h

theorem listed_ne_nil (fs : HostProc) (k : Uint32) (c : GoString) (h : (k, c) ∈ listed fs) :
    c ≠ [] := by
  unfold listed at h
  obtain ⟨proc, _, he⟩ := List.mem_filterMap.1 h
  unfold entryOf at he
  cases hA : Atoi proc with
  | none => simp [hA] at he
  | some pid =>
    cases hC : fs.cgroup proc with
    | none => simp [hA, hC] at he
    | some content =>
      simp only [hA, hC] at he
      by_cases hid : extractId content = []
      · simp [hid] at he
      · simp only [hid, ne_eq, not_false_eq_true, if_true, Option.some.injEq, Prod.mk.injEq] at he
        rw [← he.2]
        exact hid

theorem option_ext_some (x y : Option GoString) (h : ∀ c, x = some c ↔ y = some c) : x = y := by
  cases x with
  | none =>
    cases y with
    | none => rfl
    | some b => exact ((h b).2 rfl).symm ▸ rfl
  | some a => exact ((h a).1 rfl).symm

/-- When the new snapshot has the entries of the previous one and the pids of the listing are
distinct, both sides of the diff are empty. -/
theorem computeDiff_empty_of_same (o : RangeOrder) (pm : PidMap) (fs : HostProc)
    (hd : DistinctPids fs)
    (hsame : ∀ k, (computeDiff o pm fs).nextPidmap.lookup k = pm.pidmap.lookup k) :
    (computeDiff o pm fs).pidmapToAdd.entries = [] ∧
    (computeDiff o pm fs).pidmapToRemove.entries = [] := by
  constructor
  · apply entries_eq_nil_of_lookup
    intro k
    cases hl : (computeDiff o pm fs).pidmapToAdd.lookup k with
    | none => rfl
    | some c =>
      have := (add_iff o pm fs hd k c).1 hl
      rw [hsame] at this
      exact absurd this.1 this.2
  · apply entries_eq_nil_of_lookup
    intro k
    cases hl : (computeDiff o pm fs).pidmapToRemove.lookup k with
    | none => rfl
    | some c =>
      have := (remove_iff o pm fs k c).1 hl
      rw [hsame, this.1] at this
      cases this.2

theorem listed_perm (fs : HostProc) (names : List GoString) (hp : names.Perm fs.names) :
    (listed ⟨fs.openErr, names, fs.listErr, fs.cgroup⟩).Perm (listed fs) := by
  unfold listed Readdirnames entryOf
  by_cases ho : fs.openErr = true
  · simp [ho]
  · simp only [ho, if_false, Bool.false_eq_true]
    exact hp.filterMap _

/-! ## No-op tick and the shape of the commands (C11, C12, C13) -/

/-- C11, as stated, fails: the previous snapshot is `{1: "A"}`, the listing has the names `1`
and `01` for pid 1 (containers `B`, then `A`), so the new snapshot is `{1: "A"}` again; yet
`Update` runs the command that writes `B` at the key of pid 1. -/
theorem C11_counterexample :
    (computeDiff RangeOrder.asStored oneEntry twoNamesTable).nextPidmap.entries
      = oneEntry.pidmap.entries ∧
    (Update bpftool Orders.asStored oneEntry twoNamesTable (storeOf oneEntry.pidmap)).cmds
      = [updateCommand 1 (str "B")] ∧
    (Update bpftool Orders.asStored oneEntry twoNamesTable (storeOf oneEntry.pidmap)).world
      (PutUint32 1) = some (str "B") := by
  refine ⟨by decide, by decide, by decide⟩

/-- C11 (amended): for every snapshot S and every process listing in which no two names that
yield a container id denote the same pid, when the previous snapshot is S and the new snapshot
has the entries of S again, `Update` runs no store command at all, leaves the world as it is,
and the retained snapshot afterwards has the entries of S. -/
theorem C11_noop_tick {σ : Type} (exec : Command → σ → Bool × σ) (o : Orders) (pm : PidMap)
    (fs : HostProc) (w : σ) (hd : DistinctPids fs)
    (hsame : ∀ k, (computeDiff o.previous pm fs).nextPidmap.lookup k = pm.pidmap.lookup k) :
    (Update exec o pm fs w).cmds = [] ∧ (Update exec o pm fs w).world = w ∧
    ∀ k, (Update exec o pm fs w).pm.pidmap.lookup k = pm.pidmap.lookup k := by
  obtain ⟨ha, hr⟩ := computeDiff_empty_of_same o.previous pm fs hd hsame
  have h := Apply_nil exec o _ _ w ha hr
  refine ⟨?_, ?_, hsame⟩
  · have h2 := congrArg Prod.snd h
    exact h2
  · have h1 := congrArg Prod.fst h
    exact h1

/-- C11, witness: the tick after the end-to-end scenario, over the same table. -/
theorem C11_noop_tick_witness :
    DistinctPids scenarioTable ∧
    (∀ k, (computeDiff Orders.reversed.previous
        ⟨(computeDiff RangeOrder.asStored scenarioPrevious scenarioTable).nextPidmap⟩
        scenarioTable).nextPidmap.lookup k
      = (computeDiff RangeOrder.asStored scenarioPrevious scenarioTable).nextPidmap.lookup k) ∧
    (Update bpftool Orders.reversed
      ⟨(computeDiff RangeOrder.asStored scenarioPrevious scenarioTable).nextPidmap⟩
      scenarioTable (storeOf ∅)).cmds = [] :=
  ⟨by decide,
    fun k => congrArg (AList.lookup k) (computeDiff_next_indep _ RangeOrder.asStored _ scenarioPrevious scenarioTable),
    (C11_noop_tick bpftool Orders.reversed
      ⟨(computeDiff RangeOrder.asStored scenarioPrevious scenarioTable).nextPidmap⟩
      scenarioTable (storeOf ∅) (by decide)
      (fun k => congrArg (AList.lookup k) (computeDiff_next_indep _ RangeOrder.asStored _ scenarioPrevious scenarioTable))).1⟩

/-- C12: for every add set and remove set, every visiting order and every behaviour of the
commands, in the sequence of commands that `Apply` runs every delete command comes before every
update command; and when no command of the sequence fails, the sequence has exactly one delete
command per key of the remove set, exactly one update command per entry of the add set, and
nothing else. -/
theorem C12_removals_before_upserts {σ : Type} (exec : Command → σ → Bool × σ) (o : Orders)
    (pidmapToAdd pidmapToRemove : GoMap) (w : σ) :
    (∀ i j k k' v,
      (Apply exec o pidmapToAdd pidmapToRemove w).2.get? i = some (updateCommand k v) →
      (Apply exec o pidmapToAdd pidmapToRemove w).2.get? j = some (deleteCommand k') → j < i) ∧
    ((∀ pre c post, (Apply exec o pidmapToAdd pidmapToRemove w).2 = pre ++ c :: post →
        (exec c (runAll exec pre w)).1 = false) →
      (∀ k, (Apply exec o pidmapToAdd pidmapToRemove w).2.count (deleteCommand k)
          = if (pidmapToRemove.lookup k).isSome then 1 else 0) ∧
      (∀ k v, (Apply exec o pidmapToAdd pidmapToRemove w).2.count (updateCommand k v)
          = if pidmapToAdd.lookup k = some v then 1 else 0) ∧
      (Apply exec o pidmapToAdd pidmapToRemove w).2.length
          = pidmapToRemove.entries.length + pidmapToAdd.entries.length) := by
  constructor
  · intro i j k k' v hi hj
    have h1 := (Apply_cmds_positions exec o pidmapToAdd pidmapToRemove w i _ hi).1 k v rfl
    have h2 := (Apply_cmds_positions exec o pidmapToAdd pidmapToRemove w j _ hj).2 k' rfl
    omega
  · intro hok
    have hall : (Apply exec o pidmapToAdd pidmapToRemove w).2
        = deleteCommands o pidmapToRemove ++ updateCommands o pidmapToAdd := by
      rw [Apply_eq_run] at hok ⊢
      exact runUntilFailure_all exec _ w hok
    rw [hall]
    refine ⟨?_, ?_, ?_⟩
    · intro k
      rw [List.count_append, count_deleteCommands,
        List.count_eq_zero_of_not_mem (deleteCommand_not_mem_updateCommands o pidmapToAdd k)]
      rfl
    · intro k v
      rw [List.count_append, count_updateCommands,
        List.count_eq_zero_of_not_mem (updateCommand_not_mem_deleteCommands o pidmapToRemove k v)]
      simp
    · simp only [List.length_append, deleteCommands, updateCommands, List.length_map]
      rw [(o.toRemove.perm pidmapToRemove).length_eq, (o.toAdd.perm pidmapToAdd).length_eq]

/-- C13: for every add set and remove set, every visiting order and every behaviour of the
commands: a command of `Apply` that fails is the last command that `Apply` runs, and the world
after `Apply` is the world reached by running exactly the commands of the sequence, so no
command is run to undo the commands that were run before the failure. -/
theorem C13_fail_fast {σ : Type} (exec : Command → σ → Bool × σ) (o : Orders)
    (pidmapToAdd pidmapToRemove : GoMap) (w : σ) :
    (∀ pre c post, (Apply exec o pidmapToAdd pidmapToRemove w).2 = pre ++ c :: post →
      (exec c (runAll exec pre w)).1 = true → post = []) ∧
    (Apply exec o pidmapToAdd pidmapToRemove w).1
      = runAll exec (Apply exec o pidmapToAdd pidmapToRemove w).2 w := by
  constructor
  · intro pre c post h hfail
    rw [Apply_eq_run] at h
    exact (runUntilFailure_failure_last exec _ w pre c post h hfail).1
  · rw [Apply_eq_run]
    exact runUntilFailure_world exec _ w

/-! ## Algebra of the diff (C14, C15, C16, C17) -/

/-- C14, as stated, fails: the previous snapshot is `{5: "A"}`, the listing has the names `5`
and `+5` for pid 5 (containers `B`, then `A`), so the new snapshot is `{5: "A"}` again; yet the
add set is `{5: "B"}`. -/
theorem C14_counterexample :
    (computeDiff RangeOrder.asStored fiveEntry signedNamesTable).nextPidmap.entries
      = fiveEntry.pidmap.entries ∧
    (computeDiff RangeOrder.asStored fiveEntry signedNamesTable).pidmapToAdd.entries
      = [⟨5, str "B"⟩] := by
  refine ⟨by decide, by decide⟩

/-- C14 (amended): for every snapshot S and every process listing in which no two names that
yield a container id denote the same pid, when `Update` runs with previous snapshot S and the
new snapshot has the entries of S, both `pidmapToAdd` and `pidmapToRemove` are empty. -/
theorem C14_diff_same_empty (o : RangeOrder) (pm : PidMap) (fs : HostProc) (hd : DistinctPids fs)
    (hsame : ∀ k, (computeDiff o pm fs).nextPidmap.lookup k = pm.pidmap.lookup k) :
    (computeDiff o pm fs).pidmapToAdd.entries = [] ∧
    (computeDiff o pm fs).pidmapToRemove.entries = [] :=
  computeDiff_empty_of_same o pm fs hd hsame

/-- C14, witness: the snapshot of the end-to-end scenario against its own table. -/
theorem C14_diff_same_empty_witness :
    DistinctPids scenarioTable ∧
    (computeDiff RangeOrder.reversed
      ⟨(computeDiff RangeOrder.asStored scenarioPrevious scenarioTable).nextPidmap⟩
      scenarioTable).pidmapToAdd.entries = [] ∧
    (computeDiff RangeOrder.reversed
      ⟨(computeDiff RangeOrder.asStored scenarioPrevious scenarioTable).nextPidmap⟩
      scenarioTable).pidmapToRemove.entries = [] :=
  ⟨by decide,
    C14_diff_same_empty RangeOrder.reversed
      ⟨(computeDiff RangeOrder.asStored scenarioPrevious scenarioTable).nextPidmap⟩
      scenarioTable (by decide)
      (fun k => congrArg (AList.lookup k) (computeDiff_next_indep _ RangeOrder.asStored _ scenarioPrevious scenarioTable))⟩

/-- C15: for every previous snapshot A and every process listing whose new snapshot B has no
pid in common with A, the remove set has exactly the entries of A and the add set has exactly
the entries of B. -/
theorem C15_diff_disjoint (o : RangeOrder) (pm : PidMap) (fs : HostProc)
    (hdisj : ∀ k ∈ pm.pidmap.keys, k ∉ (computeDiff o pm fs).nextPidmap.keys) :
    ∀ k, (computeDiff o pm fs).pidmapToRemove.lookup k = pm.pidmap.lookup k ∧
      (computeDiff o pm fs).pidmapToAdd.lookup k = (computeDiff o pm fs).nextPidmap.lookup k := by
  have hnone : ∀ k, (pm.pidmap.lookup k).isSome = true →
      (computeDiff o pm fs).nextPidmap.lookup k = none := by
    intro k hk
    rw [AList.lookup_isSome, AList.mem_keys] at hk
    exact AList.lookup_eq_none.2 (fun hm => hdisj k hk (AList.mem_keys.1 hm))
  intro k
  constructor
  · apply option_ext_some
    intro c
    rw [remove_iff]
    constructor
    · exact fun h => h.1
    · exact fun h => ⟨h, hnone k (by rw [h]; rfl)⟩
  · apply option_ext_some
    intro c
    constructor
    · intro h
      have hl := listed_of_add o pm fs k c h
      have hs := next_isSome_of_listed o pm fs k c hl
      cases hn : (computeDiff o pm fs).nextPidmap.lookup k with
      | none => rw [hn] at hs; cases hs
      | some c' =>
        have hp : pm.pidmap.lookup k ≠ some c' := by
          intro hp
          have := hnone k (by rw [hp]; rfl)
          rw [hn] at this
          cases this
        have := add_of_next o pm fs k c' hn hp
        rw [h] at this
        exact this.symm
    · intro h
      apply add_of_next o pm fs k c h
      intro hp
      have := hnone k (by rw [hp]; rfl)
      rw [h] at this
      cases this

/-- C15, witness: A = `{1: "A"}` and the table with the single process 7. -/
theorem C15_diff_disjoint_witness :
    (∀ k ∈ oneEntry.pidmap.keys,
      k ∉ (computeDiff RangeOrder.asStored oneEntry singleTable).nextPidmap.keys) ∧
    (computeDiff RangeOrder.asStored oneEntry singleTable).pidmapToRemove.lookup 1
      = oneEntry.pidmap.lookup 1 ∧
    (computeDiff RangeOrder.asStored oneEntry singleTable).pidmapToAdd.lookup 7
      = (computeDiff RangeOrder.asStored oneEntry singleTable).nextPidmap.lookup 7 := by
  have hyp : ∀ k ∈ oneEntry.pidmap.keys,
      k ∉ (computeDiff RangeOrder.asStored oneEntry singleTable).nextPidmap.keys := by
    intro k hk
    have h1 : oneEntry.pidmap.keys = [1] := by decide
    rw [h1, List.mem_singleton] at hk
    subst hk
    decide
  exact ⟨hyp, (C15_diff_disjoint RangeOrder.asStored oneEntry singleTable hyp 1).1,
    (C15_diff_disjoint RangeOrder.asStored oneEntry singleTable hyp 7).2⟩

/-- C16: for every previous snapshot, every visiting order and every process listing, the key
sets of the add set and of the remove set are disjoint. -/
theorem C16_add_remove_disjoint (o : RangeOrder) (pm : PidMap) (fs : HostProc) :
    List.Disjoint (computeDiff o pm fs).pidmapToAdd.keys
      (computeDiff o pm fs).pidmapToRemove.keys := by
  intro k ha hr
  rw [← AList.mem_keys, ← AList.lookup_isSome] at ha hr
  cases hla : (computeDiff o pm fs).pidmapToAdd.lookup k with
  | none => rw [hla] at ha; cases ha
  | some c =>
    cases hlr : (computeDiff o pm fs).pidmapToRemove.lookup k with
    | none => rw [hlr] at hr; cases hr
    | some v =>
      have h1 := next_isSome_of_listed o pm fs k c (listed_of_add o pm fs k c hla)
      have h2 := ((remove_iff o pm fs k v).1 hlr).2
      rw [h2] at h1
      cases h1

/-- C17, as stated, fails: the listing with the names `1` (container `B`) and `01` (container
`A`), both pid 1, gives the new snapshot `{1: "A"}`; the same listing in the other order gives
`{1: "B"}`. -/
theorem C17_counterexample :
    (twoNamesTable.names.reverse).Perm twoNamesTable.names ∧
    (computeDiff RangeOrder.asStored oneEntry twoNamesTable).nextPidmap.lookup 1
      = some (str "A") ∧
    (computeDiff RangeOrder.asStored oneEntry
      ⟨twoNamesTable.openErr, twoNamesTable.names.reverse, twoNamesTable.listErr,
        twoNamesTable.cgroup⟩).nextPidmap.lookup 1 = some (str "B") := by
  refine ⟨List.reverse_perm _, by decide, by decide⟩

/-- C17 (amended): for every previous snapshot, every process listing in which no two names
that yield a container id denote the same pid, every permutation of the names of that listing
(with the same cgroup texts) and every visiting order of the maps, `Update` computes the same
new snapshot, the same add set and the same remove set. -/
theorem C17_order_independent (o o' : RangeOrder) (pm : PidMap) (fs : HostProc)
    (names : List GoString) (hp : names.Perm fs.names) (hd : DistinctPids fs) :
    ∀ k,
      (computeDiff o' pm ⟨fs.openErr, names, fs.listErr, fs.cgroup⟩).nextPidmap.lookup k
        = (computeDiff o pm fs).nextPidmap.lookup k ∧
      (computeDiff o' pm ⟨fs.openErr, names, fs.listErr, fs.cgroup⟩).pidmapToAdd.lookup k
        = (computeDiff o pm fs).pidmapToAdd.lookup k ∧
      (computeDiff o' pm ⟨fs.openErr, names, fs.listErr, fs.cgroup⟩).pidmapToRemove.lookup k
        = (computeDiff o pm fs).pidmapToRemove.lookup k := by
  have hl := listed_perm fs names hp
  have hd' : DistinctPids ⟨fs.openErr, names, fs.listErr, fs.cgroup⟩ := by
    unfold DistinctPids at hd ⊢
    exact (hl.map Prod.fst).nodup_iff.2 hd
  have hnext : ∀ k,
      (computeDiff o' pm ⟨fs.openErr, names, fs.listErr, fs.cgroup⟩).nextPidmap.lookup k
        = (computeDiff o pm fs).nextPidmap.lookup k := by
    intro k
    apply option_ext_some
    intro c
    rw [next_iff_listed _ _ _ hd', next_iff_listed _ _ _ hd]
    exact hl.mem_iff
  intro k
  refine ⟨hnext k, ?_, ?_⟩
  · apply option_ext_some
    intro c
    rw [add_iff _ _ _ hd', add_iff _ _ _ hd, hnext]
  · apply option_ext_some
    intro c
    rw [remove_iff, remove_iff, hnext]

/-- C17, witness: the end-to-end scenario with its listing reversed. -/
theorem C17_order_independent_witness :
    (scenarioTable.names.reverse).Perm scenarioTable.names ∧ DistinctPids scenarioTable ∧
    (computeDiff RangeOrder.reversed scenarioPrevious
      ⟨scenarioTable.openErr, scenarioTable.names.reverse, scenarioTable.listErr,
        scenarioTable.cgroup⟩).pidmapToAdd.lookup 200
      = (computeDiff RangeOrder.asStored scenarioPrevious scenarioTable).pidmapToAdd.lookup 200 :=
  ⟨List.reverse_perm _, by decide,
    (C17_order_independent RangeOrder.asStored RangeOrder.reversed scenarioPrevious scenarioTable
      scenarioTable.names.reverse (List.reverse_perm _) (by decide) 200).2.1⟩

/-! ## Container ids: length and emptiness (C18, C19) -/

set_option maxRecDepth 200000 in
/-- C18, as stated, fails: for the process 9 whose docker path segment has 65 bytes, `Update`
stores the 65 bytes in the snapshot and `Apply` runs an update command with 65 value tokens;
the identifier is neither rejected nor truncated. -/
theorem C18_counterexample :
    (str longId).length = 65 ∧
    (Update bpftool Orders.asStored ⟨∅⟩ longTable (storeOf ∅)).pm.pidmap.lookup 9
      = some (str longId) ∧
    (Update bpftool Orders.asStored ⟨∅⟩ longTable (storeOf ∅)).cmds
      = [updateCommand 9 (str longId)] ∧
    ((updateCommand 9 (str longId)).args.drop 12).length = 65 := by
  refine ⟨by decide, by decide, by decide, by decide⟩

/-- C18 (amended): there is no length limit in the code: for every process whose cgroup text
yields an identifier, `Update` stores that identifier in the snapshot unchanged, whatever its
length, and the update command that `Apply` builds for a value carries one token per byte of
the value after the twelve tokens of the command and the key, so every byte is passed on. -/
theorem C18_no_length_limit (pidmap : GoMap) (fs : HostProc) (st : GoMap × GoMap)
    (proc content : GoString) (pid : Int) (hp : Atoi proc = some pid)
    (hc : fs.cgroup proc = some content) (hid : extractId content ≠ []) :
    (procStep pidmap fs st proc).1.lookup (uint32 pid) = some (extractId content) ∧
    ∀ (k : Uint32) (v : GoString),
      (updateCommand k v).args.drop 12 = stringToHex v ∧ (stringToHex v).length = v.length := by
  refine ⟨procStep_next_lookup pidmap fs st proc content pid hp hc hid, ?_⟩
  intro k v
  constructor
  · have h4 := uint32ToHex_length k
    match hk : uint32ToHex k, h4 with
    | [a, b, c, d], _ =>
      simp [updateCommand, hk]
  · rw [stringToHex_eq]
    exact List.length_map _ _

set_option maxRecDepth 200000 in
/-- C18, witness: the process 9 with the identifier of 65 bytes. -/
theorem C18_no_length_limit_witness :
    Atoi (str "9") = some 9 ∧ longTable.cgroup (str "9") = some (dockerCgroup longId) ∧
    extractId (dockerCgroup longId) ≠ [] ∧
    (procStep ∅ longTable (∅, ∅) (str "9")).1.lookup (uint32 9)
      = some (extractId (dockerCgroup longId)) ∧
    (extractId (dockerCgroup longId)).length = 65 :=
  ⟨by decide, by decide, by decide,
    (C18_no_length_limit ∅ longTable (∅, ∅) (str "9") (dockerCgroup longId) 9
      (by decide) (by decide) (by decide)).1,
    by decide⟩

/-- C19: for every previous snapshot, every visiting order and every process listing, every
container id in the snapshot retained after `Update` and every value in the add set is a
non-empty string; and a hierarchy-1 line on whose path the first match is the docker rule with
an empty following segment, such as `1:name=systemd:/docker/`, leaves `id` empty, so that the
line produces no entry. -/
theorem C19_container_ids_nonempty {σ : Type} (exec : Command → σ → Bool × σ) (o : Orders)
    (pm : PidMap) (fs : HostProc) (w : σ) :
    (∀ k c, (Update exec o pm fs w).pm.pidmap.lookup k = some c → c ≠ []) ∧
    (∀ k c, (computeDiff o.previous pm fs).pidmapToAdd.lookup k = some c → c ≠ []) ∧
    (∀ (ctrl path : GoString) (i : Nat), (58 : Byte) ∉ ctrl → (58 : Byte) ∉ path →
      DockerAt (Split path 47) i → NoMatchBefore (Split path 47) i →
      (Split path 47).getD (i + 1) [] = [] → lineId (str "1:" ++ ctrl ++ 58 :: path) = []) ∧
    lineId (str "1:name=systemd:/docker/") = [] ∧
    extractId (str "1:name=systemd:/docker/\n") = [] := by
  refine ⟨?_, ?_, ?_, by decide, by decide⟩
  · intro k c h
    exact listed_ne_nil fs k c (listed_of_next o.previous pm fs k c h)
  · intro k c h
    exact listed_ne_nil fs k c (listed_of_add o.previous pm fs k c h)
  · intro ctrl path i hctrl hpath hat hfirst hempty
    rw [lineId_hierarchy1 ctrl path hctrl hpath, scanParts_docker _ i hat hfirst, hempty]

/-! ## A failed delete (C20) -/

/-- C20: for every previous snapshot, process listing, visiting order and behaviour of the
commands: when a delete command of the tick fails, the call of `Apply` runs no update command
at all, and `Update` still replaces the retained snapshot by the new snapshot. -/
theorem C20_failed_delete_abandons_updates {σ : Type} (exec : Command → σ → Bool × σ)
    (o : Orders) (pm : PidMap) (fs : HostProc) (w : σ) (pre post : List Command) (k : Uint32)
    (h : (Update exec o pm fs w).cmds = pre ++ deleteCommand k :: post)
    (hfail : (exec (deleteCommand k) (runAll exec pre w)).1 = true) :
    (∀ k' v, updateCommand k' v ∉ (Update exec o pm fs w).cmds) ∧
    (Update exec o pm fs w).pm.pidmap = (computeDiff o.previous pm fs).nextPidmap :=
  ⟨Apply_failed_delete exec o _ _ w pre post k h hfail, rfl⟩

/-- C20, witness: the end-to-end scenario with commands that all fail: the delete for pid 100
fails, and the updates for pids 200 and 300 are not attempted. -/
theorem C20_failed_delete_abandons_updates_witness :
    (Update failing Orders.asStored scenarioPrevious scenarioTable
        (storeOf scenarioPrevious.pidmap)).cmds = [] ++ deleteCommand 100 :: [] ∧
    (failing (deleteCommand 100) (runAll failing [] (storeOf scenarioPrevious.pidmap))).1 = true ∧
    (∀ k' v, updateCommand k' v ∉ (Update failing Orders.asStored scenarioPrevious scenarioTable
        (storeOf scenarioPrevious.pidmap)).cmds) ∧
    (Update failing Orders.asStored scenarioPrevious scenarioTable
        (storeOf scenarioPrevious.pidmap)).pm.pidmap.lookup 300 = some (str "D") :=
  ⟨by decide, rfl,
    (C20_failed_delete_abandons_updates failing Orders.asStored scenarioPrevious scenarioTable
      (storeOf scenarioPrevious.pidmap) [] [] 100 (by decide) rfl).1,
    by decide⟩

end Pidmap
